import Mathlib

/-!
Verification of the bulk JSON import/reconciliation engine of the jira-clone
repository (`parseJsonImport` in the import service module, together with the
`Board`, `Sprint`, `Ticket` types from `types.ts`).

The engine is shallowly embedded: JavaScript runtime values that can occur in
a `JSON.parse` result (plus `undefined`, which property access on a missing
key produces) are modelled by the inductive type `JsVal`; JSON numbers are
modelled as integers (`Int`), which covers every numeric literal the claims
exercise.  The built-in `JSON.parse` itself is treated as an oracle: the
embedded `parseJsonImport` receives `Option JsVal`, `none` standing for a raw
text that does not deserialize, `some v` for a text deserializing to `v`.
`crypto.randomUUID()` is modelled by an identifier-generator parameter
`g : Nat → String` together with a draw counter threaded through the
computation (`g 0` is the first id drawn, `g 1` the second, and so on).
`new Date().toISOString()` is modelled by a `now : String` parameter.

A JavaScript `TypeError` (property access on `null`/`undefined`, strict-mode
property assignment on a primitive, `.push` on a non-array) and the engine's
own `throw new Error("Invalid JSON format")` are both modelled by the
`Except.error` branch, carrying the message.  All runtime `TypeError`s are
represented by the single message `"TypeError"`; since every such error
aborts the call with no other observable effect, the embedded function is
observationally faithful even where two distinct throw sites could fire on
the same input.
-/

/-- JavaScript runtime values reachable in the engine: everything
`JSON.parse` can produce, plus `undefined`.  Objects are the post-parse
form (duplicate keys already collapsed by `JSON.parse`). -/
inductive JsVal where
  | undefined : JsVal
  | null : JsVal
  | bool : Bool → JsVal
  | num : Int → JsVal
  | str : String → JsVal
  | arr : List JsVal → JsVal
  | obj : List (String × JsVal) → JsVal

mutual

/-- Structural equality test on `JsVal`, used for the `Map` key
equality of the engine's three id maps (JS `Map` uses SameValueZero;
on `JSON.parse`-produced primitive keys that is structural equality). -/
def JsVal.eqb : JsVal → JsVal → Bool
  | .undefined, .undefined => true
  | .null, .null => true
  | .bool a, .bool b => a == b
  | .num a, .num b => a == b
  | .str a, .str b => a == b
  | .arr a, .arr b => JsVal.eqbList a b
  | .obj a, .obj b => JsVal.eqbFields a b
  | _, _ => false

/-- Elementwise `JsVal.eqb` on lists. -/
def JsVal.eqbList : List JsVal → List JsVal → Bool
  | [], [] => true
  | a :: as_, b :: bs => JsVal.eqb a b && JsVal.eqbList as_ bs
  | _, _ => false

/-- Elementwise `JsVal.eqb` on object field lists. -/
def JsVal.eqbFields : List (String × JsVal) → List (String × JsVal) → Bool
  | [], [] => true
  | (k1, v1) :: as_, (k2, v2) :: bs =>
      k1 == k2 && JsVal.eqb v1 v2 && JsVal.eqbFields as_ bs
  | _, _ => false

end

/-- JavaScript truthiness of a value (`undefined`, `null`, `false`, `0`,
`""` are falsy; arrays and objects are always truthy). -/
def JsVal.truthy : JsVal → Bool
  | .undefined => false
  | .null => false
  | .bool b => b
  | .num n => n != 0
  | .str s => s != ""
  | .arr _ => true
  | .obj _ => true

/-- Property access `v.key` throws a `TypeError` exactly on these values. -/
def JsVal.isNullish : JsVal → Bool
  | .undefined => true
  | .null => true
  | _ => false

/-- The `Array.isArray` test. -/
def JsVal.isArr : JsVal → Bool
  | .arr _ => true
  | _ => false

/-- The element list of an array value (empty for non-arrays; every use is
guarded by `isArr`, mirroring the engine's `Array.isArray` guards). -/
def JsVal.elems : JsVal → List JsVal
  | .arr xs => xs
  | _ => []

/-- Property read `v.key` on a value that is not `null`/`undefined`:
object field lookup (missing field gives `undefined`), `undefined` on
primitives and arrays (no named data properties arise in this engine). -/
def jget (v : JsVal) (k : String) : JsVal :=
  match v with
  | .obj fields =>
      match fields.find? (fun p => p.1 == k) with
      | some p => p.2
      | none => .undefined
  | _ => .undefined

/-- The `x || d` idiom the engine uses for field defaulting. -/
def orDefault (v d : JsVal) : JsVal :=
  if v.truthy then v else d

/-- The engine's id maps (`boardMap`, `sprintMap`, `ticketMap`):
`Map<old_id, new_uuid>`, keyed by raw input values.  A `set` prepends, so
`find?`-first lookup realizes the overwrite-on-set semantics of `Map`. -/
def mapGet (m : List (JsVal × String)) (k : JsVal) : Option String :=
  match m.find? (fun p => JsVal.eqb p.1 k) with
  | some p => some p.2
  | none => none

/-- JavaScript `parseInt(s, 10)`: skip leading whitespace, read an optional
sign, then the longest prefix of decimal digits; no digits gives `NaN`
(modelled as `none`). -/
def parseIntJS (s : String) : Option Int :=
  let cs := s.toList.dropWhile (fun c => c.isWhitespace)
  let signAndRest : Int × List Char :=
    match cs with
    | '-' :: r => (-1, r)
    | '+' :: r => (1, r)
    | r => (1, r)
  let digits := signAndRest.2.takeWhile (fun c => c.isDigit)
  if digits.isEmpty then none
  else
    some (signAndRest.1 *
      (digits.foldl (fun a c => a * 10 + (c.toNat - '0'.toNat)) 0 : Nat))

/-- The `Board` entity as materialized by the import (from `types.ts`; `name`, `key`,
`type`, `columns` are carried as the raw runtime values the engine stores,
since it applies no type check beyond `||`-defaulting). -/
structure Board where
  id : String
  name : JsVal
  key : JsVal
  type : JsVal
  columns : JsVal

/-- The `Sprint` entity as materialized by the import (from `types.ts`). -/
structure Sprint where
  id : String
  board_id : String
  name : JsVal
  status : JsVal
  goal : JsVal
  start_date : JsVal
  end_date : JsVal

/-- The `Ticket` entity as materialized by the import (from `types.ts`).  After pass 1
the `parent_id` field holds the raw input token (or `null`), exactly as the
engine stores it; pass 2 rewrites it to a generated id string or `null`. -/
structure Ticket where
  id : String
  board_id : Option String
  sprint_id : Option String
  title : JsVal
  description : JsVal
  status : JsVal
  type : JsVal
  priority : JsVal
  story_points : JsVal
  labels : JsVal
  is_flagged : Bool
  parent_id : JsVal
  assignee_id : Option String
  created_at : String

/-- The `stats` component of the result. -/
structure Stats where
  boards : Nat
  sprints : Nat
  tickets : Nat

/-- The `ParsedResult` return shape of `parseJsonImport`. -/
structure ParsedResult where
  boards : List Board
  sprints : List Sprint
  tickets : List Ticket
  stats : Stats

/-- Accumulated output of the board stage (step 1 of the engine):
the draw counter, the `boardMap` and `sprintMap`, the materialized boards
and sprints, and the nested tickets tagged with their board's raw input id
(the engine's `t._temp_board_id = b.id` followed by a push onto
`data.tickets`). -/
structure Stage1Out where
  ctr : Nat
  boardMap : List (JsVal × String)
  sprintMap : List (JsVal × String)
  boards : List Board
  sprints : List Sprint
  tagged : List (JsVal × Option JsVal)

/-- Step 1a of the engine: the `b.sprints.forEach` loop of one board.
`bid` is the new board id.  A `null` entry throws at `s.id`. -/
def processSprintList (g : Nat → String) (bid : String) :
    List JsVal → Nat → List (JsVal × String) →
    Except String (Nat × List (JsVal × String) × List Sprint)
  | [], ctr, sm => .ok (ctr, sm, [])
  | s :: rest, ctr, sm =>
    if s.isNullish then .error "TypeError"
    else
      let newSprintId := g ctr
      let sm2 := if (jget s "id").truthy then (jget s "id", newSprintId) :: sm else sm
      let sp : Sprint :=
        { id := newSprintId
          board_id := bid
          name := orDefault (jget s "name") (.str "Imported Sprint")
          status := orDefault (jget s "status") (.str "future")
          goal := jget s "goal"
          start_date := jget s "start_date"
          end_date := jget s "end_date" }
      match processSprintList g bid rest (ctr + 1) sm2 with
      | .error e => .error e
      | .ok (c, m, sps) => .ok (c, m, sp :: sps)

/-- Step 1b of the engine: the `b.tickets.forEach` loop of one board.  Each
nested ticket gets `_temp_board_id = b.id` assigned; in strict mode that
assignment throws a `TypeError` unless the ticket value is an object or an
array, so only those survive, paired with the board's raw input id. -/
def tagTickets (bid : JsVal) : List JsVal → Except String (List (JsVal × Option JsVal))
  | [] => .ok []
  | t :: rest =>
    match t with
    | .obj _ =>
        match tagTickets bid rest with
        | .error e => .error e
        | .ok l => .ok ((t, some bid) :: l)
    | .arr _ =>
        match tagTickets bid rest with
        | .error e => .error e
        | .ok l => .ok ((t, some bid) :: l)
    | _ => .error "TypeError"

/-- Step 1 of the engine: the `data.boards.forEach` loop. -/
def processBoards (g : Nat → String) :
    List JsVal → Nat → List (JsVal × String) → List (JsVal × String) →
    Except String Stage1Out
  | [], ctr, bm, sm => .ok ⟨ctr, bm, sm, [], [], []⟩
  | b :: rest, ctr, bm, sm =>
    if b.isNullish then .error "TypeError"
    else
      let newId := g ctr
      let bm2 := if (jget b "id").truthy then (jget b "id", newId) :: bm else bm
      let newBoard : Board :=
        { id := newId
          name := orDefault (jget b "name") (.str "Imported Project")
          key := orDefault (jget b "key") (.str "IMP")
          type := orDefault (jget b "type") (.str "kanban")
          columns := orDefault (jget b "columns") (.arr []) }
      let sprintsRes :=
        if (jget b "sprints").isArr then
          processSprintList g newId (jget b "sprints").elems (ctr + 1) sm
        else .ok (ctr + 1, sm, [])
      match sprintsRes with
      | .error e => .error e
      | .ok (c2, sm2, sps) =>
        let tagRes :=
          if (jget b "tickets").isArr then tagTickets (jget b "id") (jget b "tickets").elems
          else .ok []
        match tagRes with
        | .error e => .error e
        | .ok tg =>
          match processBoards g rest c2 bm2 sm2 with
          | .error e => .error e
          | .ok out =>
            .ok ⟨out.ctr, out.boardMap, out.sprintMap,
                 newBoard :: out.boards, sps ++ out.sprints, tg ++ out.tagged⟩

/-- JS truthiness of the engine's `targetBoardId` local
(`string | undefined`). -/
def optTruthy : Option String → Bool
  | none => false
  | some s => s != ""

/-- The body of the engine's first-pass ticket loop, given the freshly drawn
id: board-id resolution by the `if/else if` chain, sprint-id resolution
through `sprintMap`, story-point coercion, field defaulting, and retention
of the raw `parent_id` (as `t.parent_id || null`) for pass 2. -/
def materializeTicket (newId : String) (now : String) (currentBoardId : Option String)
    (boards : List Board) (bm sm : List (JsVal × String))
    (entry : JsVal × Option JsVal) : Ticket :=
  let t := entry.1
  let tmp := entry.2.getD (jget t "_temp_board_id")
  let targetBoardId : Option String :=
    if tmp.truthy && (mapGet bm tmp).isSome then mapGet bm tmp
    else if (jget t "board_id").truthy && (mapGet bm (jget t "board_id")).isSome then
      mapGet bm (jget t "board_id")
    else if !(optTruthy currentBoardId) then
      match boards.head? with
      | some b0 => some b0.id
      | none => currentBoardId
    else currentBoardId
  let targetSprintId : Option String :=
    if (jget t "sprint_id").truthy && (mapGet sm (jget t "sprint_id")).isSome then
      mapGet sm (jget t "sprint_id")
    else none
  let parsedPoints : JsVal :=
    match jget t "story_points" with
    | .str s =>
        match parseIntJS s with
        | some n => .num n
        | none => .undefined
    | v => v
  { id := newId
    board_id := targetBoardId
    sprint_id := targetSprintId
    title := orDefault (jget t "title") (.str "Untitled Ticket")
    description := orDefault (jget t "description") (.str "")
    status := orDefault (jget t "status") (.str "Todo")
    type := orDefault (jget t "type") (.str "Story")
    priority := orDefault (jget t "priority") (.str "Medium")
    story_points := parsedPoints
    labels := orDefault (jget t "labels") (.arr [])
    is_flagged := (jget t "is_flagged").truthy
    parent_id := if (jget t "parent_id").truthy then jget t "parent_id" else .null
    assignee_id := none
    created_at := now }

/-- Step 2 of the engine, pass 1: the `data.tickets.forEach` materialization
loop over the working ticket list, building the `ticketMap` alongside.  A
`null` entry throws at `t.id`. -/
def processTickets (g : Nat → String) (now : String) (currentBoardId : Option String)
    (boards : List Board) (bm sm : List (JsVal × String)) :
    List (JsVal × Option JsVal) → Nat → List (JsVal × String) →
    Except String (Nat × List (JsVal × String) × List Ticket)
  | [], ctr, tm => .ok (ctr, tm, [])
  | e :: rest, ctr, tm =>
    if e.1.isNullish then .error "TypeError"
    else
      let newId := g ctr
      let tm2 := if (jget e.1 "id").truthy then (jget e.1 "id", newId) :: tm else tm
      match processTickets g now currentBoardId boards bm sm rest (ctr + 1) tm2 with
      | .error err => .error err
      | .ok (c, m, ps) =>
        .ok (c, m, materializeTicket newId now currentBoardId boards bm sm e :: ps)

/-- Step 2 of the engine, pass 2: remap one ticket's retained raw
`parent_id` through the completed `ticketMap`, orphaning on a miss. -/
def linkParent (tm : List (JsVal × String)) (t : Ticket) : Ticket :=
  { t with
    parent_id :=
      if t.parent_id.truthy then
        match mapGet tm t.parent_id with
        | some nid => .str nid
        | none => .null
      else .null }

/-- The board stage of the engine applied to the parsed document:
`data.boards && Array.isArray(data.boards)` guards the loop (an array is
always truthy, so the guard is exactly `isArr`). -/
def stage1 (g : Nat → String) (d : JsVal) : Except String Stage1Out :=
  if (jget d "boards").isArr then processBoards g (jget d "boards").elems 0 [] []
  else .ok ⟨0, [], [], [], [], []⟩

/-- The top-level `tickets` entries of the document, as working-list
entries (no board tag). -/
def topTickets (d : JsVal) : List (JsVal × Option JsVal) :=
  if (jget d "tickets").isArr then (jget d "tickets").elems.map (fun t => (t, none))
  else []

/-- The working ticket list the engine's step 2 iterates: the board stage
pushes each tagged nested ticket onto `data.tickets`, so when the document
carried a top-level `tickets` array the working list is that array followed
by the tagged tickets; otherwise (top-level `tickets` falsy) the push
created a fresh array holding only the tagged tickets.  The remaining case
(truthy non-array `data.tickets`) either threw during the push or, with no
tagged tickets, fails the step-2 `Array.isArray` guard, so no tickets are
processed. -/
def workingList (d : JsVal) (tagged : List (JsVal × Option JsVal)) :
    List (JsVal × Option JsVal) :=
  if (jget d "tickets").isArr then topTickets d ++ tagged else tagged

/-- The embedded `parseJsonImport` (import service module, lines 487–624).
`parsed` is the `JSON.parse` oracle result for the raw `jsonString`:
`none` makes the engine throw its `"Invalid JSON format"` error
(the spec's ParseError); JS runtime `TypeError`s surface as
`.error "TypeError"`. -/
def parseJsonImport (g : Nat → String) (now : String) (parsed : Option JsVal)
    (currentBoardId : Option String) : Except String ParsedResult :=
  match parsed with
  | none => .error "Invalid JSON format"
  | some data =>
    if data.isNullish then .error "TypeError"
    else
      match stage1 g data with
      | .error e => .error e
      | .ok s1 =>
        if !(s1.tagged.isEmpty) && (jget data "tickets").truthy
            && !((jget data "tickets").isArr) then
          .error "TypeError"
        else
          match processTickets g now currentBoardId s1.boards s1.boardMap s1.sprintMap
              (workingList data s1.tagged) s1.ctr [] with
          | .error e => .error e
          | .ok (_, tm, pts) =>
            let finalTickets := pts.map (linkParent tm)
            .ok { boards := s1.boards
                  sprints := s1.sprints
                  tickets := finalTickets
                  stats :=
                    { boards := s1.boards.length
                      sprints := s1.sprints.length
                      tickets := finalTickets.length } }

/-- All ids carried by a result batch: board ids, then sprint ids, then
ticket ids. -/
def batchIds (r : ParsedResult) : List String :=
  r.boards.map Board.id ++ r.sprints.map Sprint.id ++ r.tickets.map Ticket.id

/-- Values on which the strict-mode property assignment
`t._temp_board_id = b.id` succeeds. -/
def JsVal.isObjOrArr : JsVal → Bool
  | .obj _ => true
  | .arr _ => true
  | _ => false

/-- The board-level part of the non-throwing characterization: the entry
itself survives `b.id`, every nested sprint survives `s.id`, and every
nested ticket survives the strict-mode tag assignment. -/
def boardNoThrow (b : JsVal) : Bool :=
  !b.isNullish
    && (jget b "sprints").elems.all (fun s => !s.isNullish)
    && (jget b "tickets").elems.all (fun t => t.isObjOrArr)

/-- Exactly the deserialized documents on which the engine runs to
completion: the document itself is not `null`, every board entry passes
`boardNoThrow`, pushing tagged tickets does not hit a truthy non-array
top-level `tickets`, and every top-level ticket entry survives `t.id`. -/
def noThrow (d : JsVal) : Bool :=
  !d.isNullish
    && (jget d "boards").elems.all boardNoThrow
    && (!((jget d "boards").elems.any (fun b => !((jget b "tickets").elems.isEmpty)))
        || !((jget d "tickets").truthy && !((jget d "tickets").isArr)))
    && (jget d "tickets").elems.all (fun t => !t.isNullish)

/-- The raw board token tag a working-list entry carries into board-id
resolution: the tag attached in the board stage when present, otherwise
the entry's own `_temp_board_id` property. -/
def entryTag (e : JsVal × Option JsVal) : JsVal :=
  e.2.getD (jget e.1 "_temp_board_id")

/-- The amended board-id resolution rule, written from the amended claim's
words: (a) the board token tag mapped through the board-id map, if that
mapping exists; else (b) the ticket's own raw `board_id` field mapped
through the board-id map, if that mapping exists; else (c) the
`fallbackBoardId` argument when supplied and non-empty; else (d) the id of
the first board produced in this import, if any; else (e) the
`fallbackBoardId` argument when supplied (then the empty string); else
left unset. -/
def boardIdSpec (tagTok rawTok : JsVal) (fallback : Option String)
    (bm : List (JsVal × String)) (boards : List Board) : Option String :=
  match mapGet bm tagTok with
  | some v => some v
  | none =>
    match mapGet bm rawTok with
    | some v => some v
    | none =>
      match fallback with
      | some s =>
          if s ≠ "" then some s
          else
            match boards.head? with
            | some b0 => some b0.id
            | none => some s
      | none =>
          match boards.head? with
          | some b0 => some b0.id
          | none => none

/-- The amended story-point rule, written from the amended claim's words:
a string value is parsed with `parseInt` semantics (possibly negative), an
unparseable string leaves the field unset, and a non-string value passes
through unchanged. -/
def storyPointsSpec (v : JsVal) : JsVal :=
  match v with
  | .str s =>
      match parseIntJS s with
      | some n => .num n
      | none => .undefined
  | w => w

/-- The completed pass-1 ticket-id map, characterized positionally over the
working list: the new id of the last entry whose truthy raw `id` token
equals the key, its draw index counted from `ctr`. -/
def lookupLastId (g : Nat → String) :
    List (JsVal × Option JsVal) → Nat → JsVal → Option String
  | [], _, _ => none
  | e :: rest, ctr, k =>
    match lookupLastId g rest (ctr + 1) k with
    | some v => some v
    | none =>
      if (jget e.1 "id").truthy && JsVal.eqb (jget e.1 "id") k then some (g ctr)
      else none

/-- Rename the values (new ids) of an id map. -/
def mapVals (ρ : String → String) (m : List (JsVal × String)) : List (JsVal × String) :=
  m.map (fun p => (p.1, ρ p.2))

/-- Rename the generated id of a board. -/
def mapBoardIds (ρ : String → String) (b : Board) : Board :=
  { b with id := ρ b.id }

/-- Rename the generated ids of a sprint. -/
def mapSprintIds (ρ : String → String) (s : Sprint) : Sprint :=
  { s with id := ρ s.id, board_id := ρ s.board_id }

/-- Rename a resolved (pass-2) parent value: a linked id is renamed, `null`
is untouched. -/
def mapParentVal (ρ : String → String) : JsVal → JsVal
  | .str s => .str (ρ s)
  | v => v

/-- Rename the generated ids of a pass-1 ticket (the retained raw parent
token is input data, not a generated id, so it is untouched). -/
def mapTicketPass1 (ρ : String → String) (t : Ticket) : Ticket :=
  { t with
    id := ρ t.id
    board_id := t.board_id.map ρ
    sprint_id := t.sprint_id.map ρ }

/-- Rename the generated ids of a fully linked (pass-2) ticket. -/
def mapTicketIds (ρ : String → String) (t : Ticket) : Ticket :=
  { mapTicketPass1 ρ t with parent_id := mapParentVal ρ t.parent_id }

/-- Rename every generated id of a result batch. -/
def mapParsedIds (ρ : String → String) (r : ParsedResult) : ParsedResult :=
  { boards := r.boards.map (mapBoardIds ρ)
    sprints := r.sprints.map (mapSprintIds ρ)
    tickets := r.tickets.map (mapTicketIds ρ)
    stats := r.stats }

/-- Rename the ids a `Stage1Out` carries. -/
def mapStage1Ids (ρ : String → String) (s : Stage1Out) : Stage1Out :=
  { ctr := s.ctr
    boardMap := mapVals ρ s.boardMap
    sprintMap := mapVals ρ s.sprintMap
    boards := s.boards.map (mapBoardIds ρ)
    sprints := s.sprints.map (mapSprintIds ρ)
    tagged := s.tagged }

/-- A concrete identifier generator for the scenario theorems (the n-th
draw is the decimal numeral of n). -/
def natGen : Nat → String := fun n => toString n

/-- The C7 scenario document: one board with token `"b1"`, one sprint token
`"s1"` nested under it, an Epic with token `"e1"` and a Story with
`parent_id "e1"` and `sprint_id "s1"`. -/
def c7doc : JsVal := .obj [("boards", .arr [
  .obj [("id", .str "b1"),
        ("sprints", .arr [.obj [("id", .str "s1")]]),
        ("tickets", .arr [
          .obj [("id", .str "e1"), ("type", .str "Epic"), ("title", .str "E")],
          .obj [("type", .str "Story"), ("title", .str "S"),
                ("parent_id", .str "e1"), ("sprint_id", .str "s1")]])]])]

/-- The C10 scenario document: two boards, each with its own sprint; the
ticket nested under the first board names the second board's sprint
token. -/
def c10doc : JsVal := .obj [("boards", .arr [
  .obj [("id", .str "A"), ("sprints", .arr [.obj [("id", .str "sA")]]),
        ("tickets", .arr [.obj [("title", .str "X"), ("sprint_id", .str "sB")]])],
  .obj [("id", .str "B"), ("sprints", .arr [.obj [("id", .str "sB")]])]])]

/-- C3 counterexample document: one board without an input token, one
top-level ticket with no board reference of its own. -/
def c3doc : JsVal := .obj [("boards", .arr [.obj []]), ("tickets", .arr [.obj []])]

/-- C5 counterexample document: one board in the import, one top-level
ticket with no board reference of its own. -/
def c5doc : JsVal := .obj [("boards", .arr [.obj []]), ("tickets", .arr [.obj []])]

/-- C8 counterexample document: a board-nested ticket "N" and a top-level
ticket "T". -/
def c8doc : JsVal := .obj [
  ("boards", .arr [.obj [("id", .str "b"),
    ("tickets", .arr [.obj [("title", .str "N")]])]]),
  ("tickets", .arr [.obj [("title", .str "T")]])]

/-- C9 counterexample document: a string story-point value "-5". -/
def c9doc : JsVal := .obj [("tickets", .arr [.obj [("story_points", .str "-5")]])]

/-- A small document for the witness instantiations of the universally
quantified theorems: a board with a sprint, a tagged nested ticket, and a
top-level ticket referencing them. -/
def wdoc : JsVal := .obj [
  ("boards", .arr [.obj [("id", .str "b1"),
    ("sprints", .arr [.obj [("id", .str "s1")]]),
    ("tickets", .arr [.obj [("id", .str "e1"), ("title", .str "E")]])]]),
  ("tickets", .arr [.obj [("title", .str "S"), ("parent_id", .str "e1"),
    ("sprint_id", .str "s1")]])]

/-- First-run generator for the C6 witness. -/
def c6g1 : Nat → String := fun n => String.mk (List.replicate n 'a')

/-- Second-run generator for the C6 witness: disjoint from `c6g1` (every
id starts with 'b'). -/
def c6g2 : Nat → String := fun n => "b" ++ c6g1 n

/-- The renaming carrying the first C6 witness run onto the second. -/
def c6rho : String → String := fun s => "b" ++ s

/-- The raw `id` token of a working-list entry. -/
def entryIdTok (e : JsVal × Option JsVal) : JsVal := jget e.1 "id"

/-- The raw `parent_id` token of a working-list entry. -/
def entryParentTok (e : JsVal × Option JsVal) : JsVal := jget e.1 "parent_id"

/-- Position j of the working list carries a truthy raw id token equal to
the token p (so pass 1 recorded a ticket-id mapping for p at j). -/
def matchesTok (l : List (JsVal × Option JsVal)) (j : Nat) (p : JsVal) : Prop :=
  ∃ hj : j < l.length,
    (entryIdTok (l.get ⟨j, hj⟩)).truthy = true ∧
    JsVal.eqb (entryIdTok (l.get ⟨j, hj⟩)) p = true

/-- C7: on the scenario document (one board token "b1", one sprint token
"s1" under it, an Epic token "e1" and a Story with parent_id "e1" and
sprint_id "s1"), reconcile returns exactly 1 board, 1 sprint and 2 tickets;
the sprint's board_id equals the board's newly generated id (not the raw
token "b1"), the Story's parent_id equals the Epic's newly generated id,
and the Story's sprint_id equals the sprint's newly generated id. -/
theorem claim_c7_nested_board_scenario :
    ∃ r b sp tE tS,
      parseJsonImport natGen "T" (some c7doc) none = .ok r ∧
      r.boards = [b] ∧ r.sprints = [sp] ∧ r.tickets = [tE, tS] ∧
      r.stats.boards = 1 ∧ r.stats.sprints = 1 ∧ r.stats.tickets = 2 ∧
      sp.board_id = b.id ∧ sp.board_id ≠ "b1" ∧
      tS.parent_id = JsVal.str tE.id ∧ tS.sprint_id = some sp.id := by
  refine ⟨_, _, _, _, _, rfl, rfl, rfl, rfl, rfl, rfl, rfl, rfl, ?_, rfl, rfl⟩
  decide

/-- C10: the sprint-id map is shared across boards and sprint membership is
never checked against the resolved board: on the scenario document the
ticket nested under board A (raw sprint token "sB", declared under board B)
is emitted with board_id equal to A's new id and sprint_id equal to B's
sprint's new id, although that sprint's board_id is B's id, which differs
from A's. -/
theorem claim_c10_cross_board_sprint :
    ∃ r bA bB sA sB t,
      parseJsonImport natGen "T" (some c10doc) none = .ok r ∧
      r.boards = [bA, bB] ∧ r.sprints = [sA, sB] ∧ r.tickets = [t] ∧
      t.board_id = some bA.id ∧ t.sprint_id = some sB.id ∧
      sB.board_id = bB.id ∧ bA.id ≠ bB.id := by
  refine ⟨_, _, _, _, _, _, rfl, rfl, rfl, rfl, rfl, rfl, rfl, ?_⟩
  decide

/-- C1 counterexample: the raw text "null" deserializes (to the null
value), yet the call does not return a result — it throws a runtime
TypeError at `data.boards`, which is not the ParseError. -/
theorem claim_c1_counterexample :
    parseJsonImport natGen "T" (some JsVal.null) none = .error "TypeError" ∧
    "TypeError" ≠ "Invalid JSON format" :=
  ⟨rfl, by decide⟩

/-- C3 counterexample: with fallbackBoardId supplied as the empty string
and no board-token mapping applying to the ticket, the emitted board_id is
the first imported board's id "0", not the supplied fallback "" — the
claim's priority (c) before (d) fails for a supplied falsy fallback. -/
theorem claim_c3_counterexample :
    (parseJsonImport natGen "T" (some c3doc) (some "")).toOption.map
        (fun r => (r.boards.map Board.id, r.tickets.map Ticket.board_id))
      = some (["0"], [some "0"]) ∧ ("0" : String) ≠ "" :=
  ⟨rfl, by decide⟩

/-- C5 counterexample: the import produces one board (id "0"), yet the
emitted ticket's board_id is the supplied fallback "X", an id outside the
result batch. -/
theorem claim_c5_counterexample :
    (parseJsonImport natGen "T" (some c5doc) (some "X")).toOption.map
        (fun r => (r.boards.map Board.id, r.tickets.map Ticket.board_id))
      = some (["0"], [some "X"]) ∧ ("X" : String) ≠ "0" :=
  ⟨rfl, by decide⟩

/-- C8 counterexample: with both a board-nested ticket "N" and a top-level
ticket "T", the output order is top-level first ["T", "N"] — the
board-stage tagged tickets are pushed onto the end of the existing
top-level array, not prepended as the claim states. -/
theorem claim_c8_counterexample :
    (parseJsonImport natGen "T" (some c8doc) none).toOption.map
        (fun r => r.tickets.map Ticket.title)
      = some [JsVal.str "T", JsVal.str "N"] ∧
    ¬ ((parseJsonImport natGen "T" (some c8doc) none).toOption.map
        (fun r => r.tickets.map Ticket.title)
      = some [JsVal.str "N", JsVal.str "T"]) := by
  refine ⟨rfl, ?_⟩
  intro h
  rw [show (parseJsonImport natGen "T" (some c8doc) none).toOption.map
        (fun r => r.tickets.map Ticket.title)
      = some [JsVal.str "T", JsVal.str "N"] from rfl] at h
  simp at h

/-- C9 counterexample: the string story-point value "-5" is parsed to the
negative integer -5 and emitted, so the emitted story_points field is not
always a non-negative integer. -/
theorem claim_c9_counterexample :
    (parseJsonImport natGen "T" (some c9doc) none).toOption.map
        (fun r => r.tickets.map Ticket.story_points)
      = some [JsVal.num (-5)] ∧ (-5 : Int) < 0 :=
  ⟨rfl, by decide⟩

theorem eqb_truthy {a b : JsVal} (h : JsVal.eqb a b = true) :
    a.truthy = b.truthy := by
  cases a <;> cases b <;> simp_all [JsVal.eqb, JsVal.truthy]

theorem mapGet_nil (k : JsVal) : mapGet [] k = none := rfl

theorem mapGet_cons (k0 : JsVal) (v0 : String) (m : List (JsVal × String)) (k : JsVal) :
    mapGet ((k0, v0) :: m) k = if JsVal.eqb k0 k then some v0 else mapGet m k := by
  unfold mapGet
  cases h : JsVal.eqb k0 k
  · rw [List.find?_cons_of_neg _ (by simp [h])]
    simp
  · rw [List.find?_cons_of_pos _ (by simp [h])]
    simp

theorem mapGet_none_of_not_truthy {m : List (JsVal × String)}
    (hm : ∀ p ∈ m, (p.1).truthy = true) {k : JsVal} (hk : k.truthy = false) :
    mapGet m k = none := by
  induction m with
  | nil => rfl
  | cons p rest ih =>
    obtain ⟨k0, v0⟩ := p
    have he : JsVal.eqb k0 k = false := by
      cases h : JsVal.eqb k0 k
      · rfl
      · exfalso
        have ht := eqb_truthy h
        rw [hm ⟨k0, v0⟩ (List.mem_cons_self _ _), hk] at ht
        exact Bool.noConfusion ht
    rw [mapGet_cons, if_neg (by simp [he])]
    exact ih (fun p hp => hm p (List.mem_cons_of_mem _ hp))

theorem mapGet_mem_vals {m : List (JsVal × String)} {k : JsVal} {v : String}
    (h : mapGet m k = some v) : ∃ p ∈ m, p.2 = v := by
  unfold mapGet at h
  cases hf : List.find? (fun p => JsVal.eqb p.1 k) m with
  | none => rw [hf] at h; exact absurd h (by simp)
  | some p =>
    rw [hf] at h
    simp only [Option.some.injEq] at h
    exact ⟨p, List.mem_of_find?_eq_some hf, h⟩

theorem linkParent_id (tm : List (JsVal × String)) (t : Ticket) :
    (linkParent tm t).id = t.id := rfl

theorem linkParent_board_id (tm : List (JsVal × String)) (t : Ticket) :
    (linkParent tm t).board_id = t.board_id := rfl

theorem linkParent_sprint_id (tm : List (JsVal × String)) (t : Ticket) :
    (linkParent tm t).sprint_id = t.sprint_id := rfl

theorem linkParent_story_points (tm : List (JsVal × String)) (t : Ticket) :
    (linkParent tm t).story_points = t.story_points := rfl

theorem parseJsonImport_ok {g : Nat → String} {now : String} {d : JsVal}
    {cb : Option String} {r : ParsedResult}
    (h : parseJsonImport g now (some d) cb = .ok r) :
    ∃ s1 c tm pts,
      d.isNullish = false ∧
      stage1 g d = .ok s1 ∧
      (!s1.tagged.isEmpty && (jget d "tickets").truthy
        && !((jget d "tickets").isArr)) = false ∧
      processTickets g now cb s1.boards s1.boardMap s1.sprintMap
          (workingList d s1.tagged) s1.ctr [] = .ok (c, tm, pts) ∧
      r = { boards := s1.boards
            sprints := s1.sprints
            tickets := pts.map (linkParent tm)
            stats :=
              { boards := s1.boards.length
                sprints := s1.sprints.length
                tickets := (pts.map (linkParent tm)).length } } := by
  simp only [parseJsonImport] at h
  cases hd : d.isNullish with
  | true => rw [hd] at h; simp at h
  | false =>
    rw [hd] at h
    simp only [Bool.false_eq_true, if_false] at h
    cases hs1 : stage1 g d with
    | error e => rw [hs1] at h; simp at h
    | ok s1 =>
      rw [hs1] at h
      simp only [] at h
      cases hcond : (!s1.tagged.isEmpty && (jget d "tickets").truthy
          && !(jget d "tickets").isArr) with
      | true => rw [hcond] at h; simp at h
      | false =>
        rw [hcond] at h
        simp only [Bool.false_eq_true, if_false] at h
        cases hout : processTickets g now cb s1.boards s1.boardMap s1.sprintMap
            (workingList d s1.tagged) s1.ctr [] with
        | error e => rw [hout] at h; simp at h
        | ok out =>
          obtain ⟨c, tm, pts⟩ := out
          rw [hout] at h
          simp only [Except.ok.injEq] at h
          exact ⟨s1, c, tm, pts, rfl, rfl, hcond, hout, h.symm⟩

theorem processTickets_ok_shape {g : Nat → String} {now : String} {cb : Option String}
    {bs : List Board} {bm sm : List (JsVal × String)} :
    ∀ {l : List (JsVal × Option JsVal)} {ctr : Nat} {tm : List (JsVal × String)}
      {c : Nat} {m : List (JsVal × String)} {ps : List Ticket},
    processTickets g now cb bs bm sm l ctr tm = .ok (c, m, ps) →
    c = ctr + l.length ∧ ps.length = l.length ∧
    ∀ i (hi : i < l.length),
      ps.get? i = some (materializeTicket (g (ctr + i)) now cb bs bm sm (l.get ⟨i, hi⟩)) := by
  intro l
  induction l with
  | nil =>
    intro ctr tm c m ps h
    simp only [processTickets, Except.ok.injEq, Prod.mk.injEq] at h
    obtain ⟨hc, _, hp⟩ := h
    refine ⟨hc.symm.trans (by simp), by rw [← hp]; rfl, ?_⟩
    intro i hi
    exact absurd hi (by simp)
  | cons e rest ih =>
    intro ctr tm c m ps h
    simp only [processTickets] at h
    split at h
    · exact absurd h (by simp)
    · split at h
      · exact absurd h (by simp)
      · rename_i hrec
        simp only [Except.ok.injEq, Prod.mk.injEq] at h
        obtain ⟨hc, hm, hp⟩ := h
        obtain ⟨ihc, ihlen, ihget⟩ := ih hrec
        subst hc hm
        constructor
        · rw [ihc]; simp [List.length_cons]; omega
        constructor
        · rw [← hp]; simp [ihlen]
        · intro i hi
          rw [← hp]
          cases i with
          | zero => simp
          | succ j =>
            have hj : j < rest.length := by simpa using hi
            have harith : ctr + (j + 1) = ctr + 1 + j := by omega
            simp only [List.get?_cons_succ, List.get_cons_succ, harith]
            exact ihget j hj

theorem processTickets_map {g : Nat → String} {now : String} {cb : Option String}
    {bs : List Board} {bm sm : List (JsVal × String)} :
    ∀ {l : List (JsVal × Option JsVal)} {ctr : Nat} {tm : List (JsVal × String)}
      {c : Nat} {m : List (JsVal × String)} {ps : List Ticket},
    processTickets g now cb bs bm sm l ctr tm = .ok (c, m, ps) →
    ∀ k, mapGet m k =
      match lookupLastId g l ctr k with
      | some v => some v
      | none => mapGet tm k := by
  intro l
  induction l with
  | nil =>
    intro ctr tm c m ps h k
    simp only [processTickets, Except.ok.injEq, Prod.mk.injEq] at h
    obtain ⟨_, hm, _⟩ := h
    subst hm
    rfl
  | cons e rest ih =>
    intro ctr tm c m ps h k
    simp only [processTickets] at h
    split at h
    · exact absurd h (by simp)
    · split at h
      · exact absurd h (by simp)
      · rename_i hrec
        simp only [Except.ok.injEq, Prod.mk.injEq] at h
        obtain ⟨_, hm, _⟩ := h
        subst hm
        have ihm := ih hrec k
        show mapGet _ k = match lookupLastId g (e :: rest) ctr k with
          | some v => some v
          | none => mapGet tm k
        rw [lookupLastId]
        cases hl : lookupLastId g rest (ctr + 1) k with
        | some v =>
          rw [hl] at ihm
          simpa using ihm
        | none =>
          rw [hl] at ihm
          simp only [] at ihm ⊢
          cases ht : (jget e.1 "id").truthy with
          | true =>
            rw [ht] at ihm
            simp only [if_true] at ihm
            rw [mapGet_cons] at ihm
            rw [ihm]
            cases he : JsVal.eqb (jget e.1 "id") k <;> simp [he]
          | false =>
            rw [ht] at ihm
            simp only [Bool.false_eq_true, if_false] at ihm
            rw [ihm]
            simp [ht]

theorem lookupLastId_some {g : Nat → String} :
    ∀ {l : List (JsVal × Option JsVal)} {ctr : Nat} {k : JsVal} {v : String},
    lookupLastId g l ctr k = some v →
    ∃ j, ∃ hj : j < l.length,
      (jget (l.get ⟨j, hj⟩).1 "id").truthy = true ∧
      JsVal.eqb (jget (l.get ⟨j, hj⟩).1 "id") k = true ∧
      v = g (ctr + j) := by
  intro l
  induction l with
  | nil => intro ctr k v h; exact absurd h (by simp [lookupLastId])
  | cons e rest ih =>
    intro ctr k v h
    rw [lookupLastId] at h
    cases hl : lookupLastId g rest (ctr + 1) k with
    | some w =>
      rw [hl] at h
      simp only [Option.some.injEq] at h
      subst h
      obtain ⟨j, hj, h1, h2, h3⟩ := ih hl
      exact ⟨j + 1, by simpa using Nat.succ_lt_succ hj,
        by simpa using h1, by simpa using h2, by rw [h3]; congr 1; omega⟩
    | none =>
      rw [hl] at h
      simp only [] at h
      cases hc : ((jget e.1 "id").truthy && JsVal.eqb (jget e.1 "id") k) with
      | false => rw [hc] at h; simp at h
      | true =>
        rw [hc] at h
        simp only [if_true, Option.some.injEq] at h
        subst h
        simp only [Bool.and_eq_true] at hc
        exact ⟨0, by simp, hc.1, hc.2, by simp⟩

theorem lookupLastId_none {g : Nat → String} :
    ∀ {l : List (JsVal × Option JsVal)} {ctr : Nat} {k : JsVal},
    lookupLastId g l ctr k = none →
    ∀ j (hj : j < l.length),
      ¬((jget (l.get ⟨j, hj⟩).1 "id").truthy = true ∧
        JsVal.eqb (jget (l.get ⟨j, hj⟩).1 "id") k = true) := by
  intro l
  induction l with
  | nil => intro ctr k _ j hj; exact absurd hj (by simp)
  | cons e rest ih =>
    intro ctr k h j hj
    rw [lookupLastId] at h
    cases hl : lookupLastId g rest (ctr + 1) k with
    | some w => rw [hl] at h; exact absurd h (by simp)
    | none =>
      rw [hl] at h
      simp only [] at h
      cases j with
      | zero =>
        intro hcontra
        have h0 : (jget e.1 "id").truthy = true ∧ JsVal.eqb (jget e.1 "id") k = true := by
          simpa using hcontra
        rw [h0.1, h0.2] at h
        simp at h
      | succ i =>
        have hi : i < rest.length := by simpa using hj
        have := ih hl i hi
        intro hc
        exact this (by simpa using hc)

theorem materializeTicket_id (newId now : String) (cb : Option String)
    (bs : List Board) (bm sm : List (JsVal × String)) (e : JsVal × Option JsVal) :
    (materializeTicket newId now cb bs bm sm e).id = newId := rfl

theorem materializeTicket_story_points (newId now : String) (cb : Option String)
    (bs : List Board) (bm sm : List (JsVal × String)) (e : JsVal × Option JsVal) :
    (materializeTicket newId now cb bs bm sm e).story_points
      = storyPointsSpec (jget e.1 "story_points") := rfl

theorem materializeTicket_parent (newId now : String) (cb : Option String)
    (bs : List Board) (bm sm : List (JsVal × String)) (e : JsVal × Option JsVal) :
    (materializeTicket newId now cb bs bm sm e).parent_id
      = if (jget e.1 "parent_id").truthy then jget e.1 "parent_id" else JsVal.null := rfl

theorem materializeTicket_sprint_id (newId now : String) (cb : Option String)
    (bs : List Board) (bm sm : List (JsVal × String)) (e : JsVal × Option JsVal) :
    (materializeTicket newId now cb bs bm sm e).sprint_id
      = if (jget e.1 "sprint_id").truthy && (mapGet sm (jget e.1 "sprint_id")).isSome then
          mapGet sm (jget e.1 "sprint_id")
        else none := rfl

theorem linkParent_parent (tm : List (JsVal × String)) (t : Ticket) :
    (linkParent tm t).parent_id =
      if t.parent_id.truthy then
        match mapGet tm t.parent_id with
        | some nid => JsVal.str nid
        | none => JsVal.null
      else JsVal.null := rfl

theorem processSprintList_sprintMap {g : Nat → String} {bid : String} :
    ∀ {l : List JsVal} {ctr : Nat} {sm : List (JsVal × String)}
      {c : Nat} {m : List (JsVal × String)} {sps : List Sprint},
    processSprintList g bid l ctr sm = .ok (c, m, sps) →
    ∀ k v, mapGet m k = some v → mapGet sm k = some v ∨ v ∈ sps.map Sprint.id := by
  intro l
  induction l with
  | nil =>
    intro ctr sm c m sps h k v hv
    simp only [processSprintList, Except.ok.injEq, Prod.mk.injEq] at h
    obtain ⟨_, hm, _⟩ := h
    subst hm
    exact Or.inl hv
  | cons s rest ih =>
    intro ctr sm c m sps h k v hv
    simp only [processSprintList] at h
    split at h
    · exact absurd h (by simp)
    · split at h
      · exact absurd h (by simp)
      · rename_i hrec
        simp only [Except.ok.injEq, Prod.mk.injEq] at h
        obtain ⟨_, hm, hs⟩ := h
        subst hm
        rcases ih hrec k v hv with hL | hR
        · cases ht : (jget s "id").truthy with
          | true =>
            rw [ht] at hL
            simp only [if_true] at hL
            rw [mapGet_cons] at hL
            by_cases he : JsVal.eqb (jget s "id") k = true
            · rw [if_pos he] at hL
              right
              rw [← hs]
              simp only [List.map_cons, List.mem_cons]
              left
              exact (Option.some.injEq _ _ ▸ hL).symm
            · rw [if_neg he] at hL
              exact Or.inl hL
          | false =>
            rw [ht] at hL
            simp only [Bool.false_eq_true, if_false] at hL
            exact Or.inl hL
        · right
          rw [← hs]
          simp only [List.map_cons, List.mem_cons]
          exact Or.inr hR

theorem processSprintList_keys {g : Nat → String} {bid : String} :
    ∀ {l : List JsVal} {ctr : Nat} {sm : List (JsVal × String)}
      {c : Nat} {m : List (JsVal × String)} {sps : List Sprint},
    processSprintList g bid l ctr sm = .ok (c, m, sps) →
    (∀ p ∈ sm, (p.1).truthy = true) → ∀ p ∈ m, (p.1).truthy = true := by
  intro l
  induction l with
  | nil =>
    intro ctr sm c m sps h hsm
    simp only [processSprintList, Except.ok.injEq, Prod.mk.injEq] at h
    obtain ⟨_, hm, _⟩ := h
    subst hm
    exact hsm
  | cons s rest ih =>
    intro ctr sm c m sps h hsm
    simp only [processSprintList] at h
    split at h
    · exact absurd h (by simp)
    · split at h
      · exact absurd h (by simp)
      · rename_i hrec
        simp only [Except.ok.injEq, Prod.mk.injEq] at h
        obtain ⟨_, hm, _⟩ := h
        subst hm
        refine ih hrec ?_
        cases ht : (jget s "id").truthy with
        | true =>
          simp only [if_true]
          intro p hp
          rcases List.mem_cons.mp hp with hp0 | hp1
          · rw [hp0]; exact ht
          · exact hsm p hp1
        | false =>
          simp only [Bool.false_eq_true, if_false]
          exact hsm

theorem processBoards_maps {g : Nat → String} :
    ∀ {l : List JsVal} {ctr : Nat} {bm sm : List (JsVal × String)} {s1 : Stage1Out},
    processBoards g l ctr bm sm = .ok s1 →
    (∀ k v, mapGet s1.boardMap k = some v →
        mapGet bm k = some v ∨ v ∈ s1.boards.map Board.id) ∧
    (∀ k v, mapGet s1.sprintMap k = some v →
        mapGet sm k = some v ∨ v ∈ s1.sprints.map Sprint.id) ∧
    ((∀ p ∈ bm, (p.1).truthy = true) → ∀ p ∈ s1.boardMap, (p.1).truthy = true) := by
  intro l
  induction l with
  | nil =>
    intro ctr bm sm s1 h
    simp only [processBoards, Except.ok.injEq] at h
    subst h
    exact ⟨fun k v hv => Or.inl hv, fun k v hv => Or.inl hv, fun hk => hk⟩
  | cons b rest ih =>
    intro ctr bm sm s1 h
    simp only [processBoards] at h
    split at h
    · exact absurd h (by simp)
    · cases hspr : (if (jget b "sprints").isArr = true
          then processSprintList g (g ctr) (jget b "sprints").elems (ctr + 1) sm
          else Except.ok (ctr + 1, sm, [])) with
      | error e => rw [hspr] at h; simp at h
      | ok tri =>
        obtain ⟨c2, sm2, sps⟩ := tri
        rw [hspr] at h
        simp only [] at h
        cases htag : (if (jget b "tickets").isArr = true
            then tagTickets (jget b "id") (jget b "tickets").elems
            else Except.ok []) with
        | error e => rw [htag] at h; simp at h
        | ok tg =>
          rw [htag] at h
          simp only [] at h
          cases hrec : processBoards g rest c2
              (if (jget b "id").truthy = true then (jget b "id", g ctr) :: bm else bm) sm2 with
          | error e => rw [hrec] at h; simp at h
          | ok out =>
            rw [hrec] at h
            simp only [Except.ok.injEq] at h
            subst h
            obtain ⟨ihB, ihS, ihK⟩ := ih hrec
            have hsm2 : ∀ k v, mapGet sm2 k = some v →
                mapGet sm k = some v ∨ v ∈ sps.map Sprint.id := by
              by_cases ha : (jget b "sprints").isArr = true
              · rw [if_pos ha] at hspr
                exact processSprintList_sprintMap hspr
              · rw [if_neg ha] at hspr
                simp only [Except.ok.injEq, Prod.mk.injEq] at hspr
                obtain ⟨_, hsm, hsp⟩ := hspr
                subst hsm
                intro k v hv
                exact Or.inl hv
            refine ⟨?_, ?_, ?_⟩
            · intro k v hv
              rcases ihB k v hv with hL | hR
              · cases ht : (jget b "id").truthy with
                | true =>
                  rw [ht] at hL
                  simp only [if_true] at hL
                  rw [mapGet_cons] at hL
                  by_cases he : JsVal.eqb (jget b "id") k = true
                  · rw [if_pos he] at hL
                    right
                    simp only [List.map_cons, List.mem_cons]
                    exact Or.inl (Option.some.injEq _ _ ▸ hL).symm
                  · rw [if_neg he] at hL
                    exact Or.inl hL
                | false =>
                  rw [ht] at hL
                  simp only [Bool.false_eq_true, if_false] at hL
                  exact Or.inl hL
              · right
                simp only [List.map_cons, List.mem_cons]
                exact Or.inr hR
            · intro k v hv
              rcases ihS k v hv with hL | hR
              · rcases hsm2 k v hL with hL2 | hR2
                · exact Or.inl hL2
                · right
                  simp only [List.map_append, List.mem_append]
                  exact Or.inl hR2
              · right
                simp only [List.map_append, List.mem_append]
                exact Or.inr hR
            · intro hbm
              refine ihK ?_
              cases ht : (jget b "id").truthy with
              | true =>
                simp only [if_true]
                intro p hp
                rcases List.mem_cons.mp hp with hp0 | hp1
                · rw [hp0]; exact ht
                · exact hbm p hp1
              | false =>
                simp only [Bool.false_eq_true, if_false]
                exact hbm

theorem stage1_maps {g : Nat → String} {d : JsVal} {s1 : Stage1Out}
    (h : stage1 g d = .ok s1) :
    (∀ k v, mapGet s1.boardMap k = some v → v ∈ s1.boards.map Board.id) ∧
    (∀ k v, mapGet s1.sprintMap k = some v → v ∈ s1.sprints.map Sprint.id) ∧
    (∀ p ∈ s1.boardMap, (p.1).truthy = true) := by
  unfold stage1 at h
  split at h
  · obtain ⟨hB, hS, hK⟩ := processBoards_maps h
    refine ⟨?_, ?_, hK (by simp)⟩
    · intro k v hv
      rcases hB k v hv with hL | hR
      · rw [mapGet_nil] at hL; exact absurd hL (by simp)
      · exact hR
    · intro k v hv
      rcases hS k v hv with hL | hR
      · rw [mapGet_nil] at hL; exact absurd hL (by simp)
      · exact hR
  · simp only [Except.ok.injEq] at h
    subst h
    exact ⟨fun k v hv => absurd hv (by simp [mapGet_nil]), 
           fun k v hv => absurd hv (by simp [mapGet_nil]),
           fun p hp => absurd hp (by simp)⟩

theorem processTickets_mapvals {g : Nat → String} {now : String} {cb : Option String}
    {bs : List Board} {bm sm : List (JsVal × String)} :
    ∀ {l : List (JsVal × Option JsVal)} {ctr : Nat} {tm : List (JsVal × String)}
      {c : Nat} {m : List (JsVal × String)} {ps : List Ticket},
    processTickets g now cb bs bm sm l ctr tm = .ok (c, m, ps) →
    ∀ k v, mapGet m k = some v → mapGet tm k = some v ∨ v ∈ ps.map Ticket.id := by
  intro l
  induction l with
  | nil =>
    intro ctr tm c m ps h k v hv
    simp only [processTickets, Except.ok.injEq, Prod.mk.injEq] at h
    obtain ⟨_, hm, _⟩ := h
    subst hm
    exact Or.inl hv
  | cons e rest ih =>
    intro ctr tm c m ps h k v hv
    simp only [processTickets] at h
    split at h
    · exact absurd h (by simp)
    · split at h
      · exact absurd h (by simp)
      · rename_i hrec
        simp only [Except.ok.injEq, Prod.mk.injEq] at h
        obtain ⟨_, hm, hp⟩ := h
        subst hm
        rcases ih hrec k v hv with hL | hR
        · cases ht : (jget e.1 "id").truthy with
          | true =>
            rw [ht] at hL
            simp only [if_true] at hL
            rw [mapGet_cons] at hL
            by_cases he : JsVal.eqb (jget e.1 "id") k = true
            · rw [if_pos he] at hL
              right
              rw [← hp]
              simp only [List.map_cons, List.mem_cons]
              left
              rw [materializeTicket_id]
              exact (Option.some.injEq _ _ ▸ hL).symm
            · rw [if_neg he] at hL
              exact Or.inl hL
          | false =>
            rw [ht] at hL
            simp only [Bool.false_eq_true, if_false] at hL
            exact Or.inl hL
        · right
          rw [← hp]
          simp only [List.map_cons, List.mem_cons]
          exact Or.inr hR

theorem processTickets_mem {g : Nat → String} {now : String} {cb : Option String}
    {bs : List Board} {bm sm : List (JsVal × String)} :
    ∀ {l : List (JsVal × Option JsVal)} {ctr : Nat} {tm : List (JsVal × String)}
      {c : Nat} {m : List (JsVal × String)} {ps : List Ticket},
    processTickets g now cb bs bm sm l ctr tm = .ok (c, m, ps) →
    ∀ p ∈ ps, ∃ n, ∃ e ∈ l, p = materializeTicket (g n) now cb bs bm sm e := by
  intro l
  induction l with
  | nil =>
    intro ctr tm c m ps h p hp
    simp only [processTickets, Except.ok.injEq, Prod.mk.injEq] at h
    obtain ⟨_, _, hps⟩ := h
    subst hps
    exact absurd hp (by simp)
  | cons e rest ih =>
    intro ctr tm c m ps h p hp
    simp only [processTickets] at h
    split at h
    · exact absurd h (by simp)
    · split at h
      · exact absurd h (by simp)
      · rename_i hrec
        simp only [Except.ok.injEq, Prod.mk.injEq] at h
        obtain ⟨_, _, hps⟩ := h
        subst hps
        rcases List.mem_cons.mp hp with hp0 | hp1
        · exact ⟨ctr, e, List.mem_cons_self _ _, hp0⟩
        · obtain ⟨n, e2, he2, hpe⟩ := ih hrec p hp1
          exact ⟨n, e2, List.mem_cons_of_mem _ he2, hpe⟩

/-- C2: referential closure of the output batch — every emitted ticket's
parent_id is null or the id of a ticket of the same batch, and its
sprint_id is null or the id of a sprint of the same batch; in particular a
raw input token is never emitted in these fields. -/
theorem claim_c2_referential_closure {g : Nat → String} {now : String}
    {parsed : Option JsVal} {cb : Option String} {r : ParsedResult}
    (h : parseJsonImport g now parsed cb = .ok r) :
    ∀ t ∈ r.tickets,
      (t.parent_id = JsVal.null ∨ ∃ t2 ∈ r.tickets, t.parent_id = JsVal.str t2.id) ∧
      (t.sprint_id = none ∨ ∃ sp ∈ r.sprints, t.sprint_id = some sp.id) := by
  cases parsed with
  | none => exact absurd h (by simp [parseJsonImport])
  | some d =>
    obtain ⟨s1, c, tm, pts, hnn, hs1, hpc, hpt, hr⟩ := parseJsonImport_ok h
    obtain ⟨hB, hS, hK⟩ := stage1_maps hs1
    subst hr
    intro t ht
    simp only [List.mem_map] at ht
    obtain ⟨p, hp, hlink⟩ := ht
    constructor
    · -- parent closure
      rw [← hlink, linkParent_parent]
      by_cases htr : p.parent_id.truthy = true
      · rw [if_pos htr]
        cases hmg : mapGet tm p.parent_id with
        | none => exact Or.inl rfl
        | some nid =>
          right
          rcases processTickets_mapvals hpt _ nid hmg with hL | hR
          · rw [mapGet_nil] at hL; exact absurd hL (by simp)
          · simp only [List.mem_map] at hR
            obtain ⟨p2, hp2, hid⟩ := hR
            exact ⟨linkParent tm p2, List.mem_map_of_mem _ hp2,
              by rw [linkParent_id, hid]⟩
      · rw [if_neg htr]
        exact Or.inl rfl
    · -- sprint closure
      rw [← hlink, linkParent_sprint_id]
      obtain ⟨n, e, he, hpe⟩ := processTickets_mem hpt p hp
      rw [hpe, materializeTicket_sprint_id]
      by_cases hc : ((jget e.1 "sprint_id").truthy
          && (mapGet s1.sprintMap (jget e.1 "sprint_id")).isSome) = true
      · rw [if_pos hc]
        simp only [Bool.and_eq_true, Option.isSome_iff_exists] at hc
        obtain ⟨-, v, hv⟩ := hc
        rw [hv]
        right
        have := hS _ v hv
        simp only [List.mem_map] at this
        obtain ⟨sp, hsp, hspid⟩ := this
        exact ⟨sp, hsp, by rw [hspid]⟩
      · rw [if_neg hc]
        exact Or.inl rfl

/-- Witness for C2 at a concrete import document. -/
theorem claim_c2_witness :
    ∃ r, parseJsonImport natGen "T" (some wdoc) none = .ok r ∧
      ∀ t ∈ r.tickets,
        (t.parent_id = JsVal.null ∨ ∃ t2 ∈ r.tickets, t.parent_id = JsVal.str t2.id) ∧
        (t.sprint_id = none ∨ ∃ sp ∈ r.sprints, t.sprint_id = some sp.id) := by
  obtain ⟨r, hr⟩ : ∃ r, parseJsonImport natGen "T" (some wdoc) none = .ok r := ⟨_, rfl⟩
  exact ⟨r, hr, claim_c2_referential_closure hr⟩

theorem materializeTicket_board_id_eq (newId now : String) (cb : Option String)
    (bs : List Board) (bm sm : List (JsVal × String)) (e : JsVal × Option JsVal) :
    (materializeTicket newId now cb bs bm sm e).board_id =
      (if (entryTag e).truthy && (mapGet bm (entryTag e)).isSome then mapGet bm (entryTag e)
       else if (jget e.1 "board_id").truthy && (mapGet bm (jget e.1 "board_id")).isSome then
         mapGet bm (jget e.1 "board_id")
       else if !(optTruthy cb) then
         match bs.head? with
         | some b0 => some b0.id
         | none => cb
       else cb) := rfl

theorem resolve_eq_boardIdSpec (tagTok rawTok : JsVal) (cb : Option String)
    (bm : List (JsVal × String)) (bs : List Board)
    (hbm : ∀ p ∈ bm, (p.1).truthy = true) :
    (if tagTok.truthy && (mapGet bm tagTok).isSome then mapGet bm tagTok
     else if rawTok.truthy && (mapGet bm rawTok).isSome then mapGet bm rawTok
     else if !(optTruthy cb) then
       match bs.head? with
       | some b0 => some b0.id
       | none => cb
     else cb) = boardIdSpec tagTok rawTok cb bm bs := by
  unfold boardIdSpec
  cases hm1 : mapGet bm tagTok with
  | some v =>
    have ht : tagTok.truthy = true := by
      cases ht : tagTok.truthy
      · rw [mapGet_none_of_not_truthy hbm ht] at hm1
        exact absurd hm1 (by simp)
      · rfl
    rw [ht]
    simp
  | none =>
    simp only [Option.isSome_none, Bool.and_false, Bool.false_eq_true, if_false]
    cases hm2 : mapGet bm rawTok with
    | some v =>
      have ht : rawTok.truthy = true := by
        cases ht : rawTok.truthy
        · rw [mapGet_none_of_not_truthy hbm ht] at hm2
          exact absurd hm2 (by simp)
        · rfl
      rw [ht]
      simp
    | none =>
      simp only [Option.isSome_none, Bool.and_false, Bool.false_eq_true, if_false]
      cases cb with
      | none => simp [optTruthy]
      | some s =>
        by_cases hs : s = ""
        · subst hs
          simp [optTruthy]
        · simp [optTruthy, hs]

/-- C3 (amended): for every ticket processed in pass 1, the emitted
board_id follows the priority (a) board-stage tag mapped through the
board-id map, if that mapping exists; else (b) the ticket's own raw
board_id mapped through the board-id map, if that mapping exists; else
(c) the fallbackBoardId when supplied and non-empty; else (d) the first
board of this import, if any; else (e) the fallbackBoardId when supplied
(then the empty string); else unset — as captured by `boardIdSpec`. -/
theorem claim_c3_board_priority {g : Nat → String} {now : String} {d : JsVal}
    {cb : Option String} {r : ParsedResult} {s1 : Stage1Out}
    (h : parseJsonImport g now (some d) cb = .ok r)
    (hs1 : stage1 g d = .ok s1) :
    ∀ i (hi : i < (workingList d s1.tagged).length),
      (r.tickets.get? i).map Ticket.board_id
        = some (boardIdSpec (entryTag ((workingList d s1.tagged).get ⟨i, hi⟩))
            (jget ((workingList d s1.tagged).get ⟨i, hi⟩).1 "board_id")
            cb s1.boardMap s1.boards) := by
  obtain ⟨s1b, c, tm, pts, hnn, hs1b, hpc, hpt, hr⟩ := parseJsonImport_ok h
  rw [hs1] at hs1b
  injection hs1b with he
  subst he
  obtain ⟨-, -, hget⟩ := processTickets_ok_shape hpt
  obtain ⟨-, -, hK⟩ := stage1_maps hs1
  subst hr
  intro i hi
  show ((pts.map (linkParent tm)).get? i).map Ticket.board_id = _
  rw [List.get?_map, hget i hi]
  simp only [Option.map_some']
  rw [linkParent_board_id, materializeTicket_board_id_eq,
    resolve_eq_boardIdSpec _ _ _ _ _ hK]

/-- Witness for C3 at a concrete import document. -/
theorem claim_c3_witness :
    ∃ s1 r, stage1 natGen wdoc = .ok s1 ∧
      parseJsonImport natGen "T" (some wdoc) none = .ok r ∧
      ∀ i (hi : i < (workingList wdoc s1.tagged).length),
        (r.tickets.get? i).map Ticket.board_id
          = some (boardIdSpec (entryTag ((workingList wdoc s1.tagged).get ⟨i, hi⟩))
              (jget ((workingList wdoc s1.tagged).get ⟨i, hi⟩).1 "board_id")
              none s1.boardMap s1.boards) := by
  obtain ⟨s1, hs1⟩ : ∃ s1, stage1 natGen wdoc = .ok s1 := ⟨_, rfl⟩
  obtain ⟨r, hr⟩ : ∃ r, parseJsonImport natGen "T" (some wdoc) none = .ok r := ⟨_, rfl⟩
  exact ⟨s1, r, hs1, hr, claim_c3_board_priority hr hs1⟩

theorem storyPointsSpec_not_str : ∀ (v : JsVal) (s : String),
    storyPointsSpec v ≠ JsVal.str s := by
  intro v s
  cases v with
  | str s2 =>
    simp only [storyPointsSpec]
    cases h : parseIntJS s2 <;> simp
  | undefined => simp [storyPointsSpec]
  | null => simp [storyPointsSpec]
  | bool b => simp [storyPointsSpec]
  | num n => simp [storyPointsSpec]
  | arr xs => simp [storyPointsSpec]
  | obj fs => simp [storyPointsSpec]

/-- C9 (amended): an emitted story_points value is never a string; a
string input is parsed with parseInt semantics (possibly negative), an
unparseable string leaves the field unset, and a non-string input passes
through unchanged — as captured positionally by `storyPointsSpec`. -/
theorem claim_c9_story_coercion {g : Nat → String} {now : String} {d : JsVal}
    {cb : Option String} {r : ParsedResult} {s1 : Stage1Out}
    (h : parseJsonImport g now (some d) cb = .ok r)
    (hs1 : stage1 g d = .ok s1) :
    (∀ t ∈ r.tickets, ∀ s : String, t.story_points ≠ JsVal.str s) ∧
    ∀ i (hi : i < (workingList d s1.tagged).length),
      (r.tickets.get? i).map Ticket.story_points
        = some (storyPointsSpec
            (jget ((workingList d s1.tagged).get ⟨i, hi⟩).1 "story_points")) := by
  obtain ⟨s1b, c, tm, pts, hnn, hs1b, hpc, hpt, hr⟩ := parseJsonImport_ok h
  rw [hs1] at hs1b
  injection hs1b with he
  subst he
  obtain ⟨-, -, hget⟩ := processTickets_ok_shape hpt
  subst hr
  constructor
  · intro t ht s
    simp only [List.mem_map] at ht
    obtain ⟨p, hp, hlink⟩ := ht
    obtain ⟨n, e, he, hpe⟩ := processTickets_mem hpt p hp
    rw [← hlink, linkParent_story_points, hpe, materializeTicket_story_points]
    exact storyPointsSpec_not_str _ s
  · intro i hi
    show ((pts.map (linkParent tm)).get? i).map Ticket.story_points = _
    rw [List.get?_map, hget i hi]
    simp only [Option.map_some']
    rw [linkParent_story_points, materializeTicket_story_points]

/-- Witness for C9's amended theorem at a concrete import document. -/
theorem claim_c9_witness :
    ∃ s1 r, stage1 natGen wdoc = .ok s1 ∧
      parseJsonImport natGen "T" (some wdoc) none = .ok r ∧
      (∀ t ∈ r.tickets, ∀ s : String, t.story_points ≠ JsVal.str s) ∧
      ∀ i (hi : i < (workingList wdoc s1.tagged).length),
        (r.tickets.get? i).map Ticket.story_points
          = some (storyPointsSpec
              (jget ((workingList wdoc s1.tagged).get ⟨i, hi⟩).1 "story_points")) := by
  obtain ⟨s1, hs1⟩ : ∃ s1, stage1 natGen wdoc = .ok s1 := ⟨_, rfl⟩
  obtain ⟨r, hr⟩ : ∃ r, parseJsonImport natGen "T" (some wdoc) none = .ok r := ⟨_, rfl⟩
  exact ⟨s1, r, hs1, hr, claim_c9_story_coercion hr hs1⟩

theorem materializeTicket_parent_tok (newId now : String) (cb : Option String)
    (bs : List Board) (bm sm : List (JsVal × String)) (e : JsVal × Option JsVal) :
    (materializeTicket newId now cb bs bm sm e).parent_id
      = if (entryParentTok e).truthy then entryParentTok e else JsVal.null := rfl

/-- C4: parent linking is a complete second pass — if the raw parent token
of the ticket at position i received a new id in pass 1 (some working-list
position j, possibly later than i, carries a matching truthy id token),
the emitted parent_id is the newly generated id of an output ticket at
such a position j; if no position matches (or the token is falsy), the
emitted parent_id is null — never the raw token, never an error. -/
theorem claim_c4_parent_linking {g : Nat → String} {now : String} {d : JsVal}
    {cb : Option String} {r : ParsedResult} {s1 : Stage1Out}
    (h : parseJsonImport g now (some d) cb = .ok r)
    (hs1 : stage1 g d = .ok s1) :
    ∀ i (hi : i < (workingList d s1.tagged).length),
      (((entryParentTok ((workingList d s1.tagged).get ⟨i, hi⟩)).truthy = true ∧
          ∃ j, matchesTok (workingList d s1.tagged) j
            (entryParentTok ((workingList d s1.tagged).get ⟨i, hi⟩))) →
        ∃ j, ∃ hj2 : j < r.tickets.length,
          matchesTok (workingList d s1.tagged) j
            (entryParentTok ((workingList d s1.tagged).get ⟨i, hi⟩)) ∧
          (r.tickets.get? i).map Ticket.parent_id
            = some (JsVal.str (r.tickets.get ⟨j, hj2⟩).id)) ∧
      (((entryParentTok ((workingList d s1.tagged).get ⟨i, hi⟩)).truthy = false ∨
          ∀ j, ¬ matchesTok (workingList d s1.tagged) j
            (entryParentTok ((workingList d s1.tagged).get ⟨i, hi⟩))) →
        (r.tickets.get? i).map Ticket.parent_id = some JsVal.null) := by
  obtain ⟨s1b, c, tm, pts, hnn, hs1b, hpc, hpt, hr⟩ := parseJsonImport_ok h
  rw [hs1] at hs1b
  injection hs1b with he
  subst he
  obtain ⟨-, hlen, hget⟩ := processTickets_ok_shape hpt
  have hmap := processTickets_map hpt
  subst hr
  intro i hi
  set w := workingList d s1.tagged with hw
  set p := entryParentTok (w.get ⟨i, hi⟩) with hp
  have htlen : (pts.map (linkParent tm)).length = w.length := by
    rw [List.length_map, hlen]
  have hgeti : (pts.map (linkParent tm)).get? i
      = some (linkParent tm (materializeTicket (g (s1.ctr + i)) now cb s1.boards
          s1.boardMap s1.sprintMap (w.get ⟨i, hi⟩))) := by
    rw [List.get?_map, hget i hi]
    simp only [Option.map_some']
  constructor
  · rintro ⟨htr, j0, hmatch0⟩
    cases hlk : lookupLastId g w s1.ctr p with
    | none =>
      exfalso
      obtain ⟨hj0, h1, h2⟩ := hmatch0
      exact lookupLastId_none hlk j0 hj0 ⟨h1, h2⟩
    | some v =>
      obtain ⟨j, hj, hjt, hje, hjv⟩ := lookupLastId_some hlk
      have hj2 : j < (pts.map (linkParent tm)).length := by rw [htlen]; exact hj
      refine ⟨j, hj2, ⟨hj, hjt, hje⟩, ?_⟩
      have hmg : mapGet tm p = some v := by
        rw [hmap p, hlk]
      have hgetj : (pts.map (linkParent tm)).get? j
          = some (linkParent tm (materializeTicket (g (s1.ctr + j)) now cb s1.boards
              s1.boardMap s1.sprintMap (w.get ⟨j, hj⟩))) := by
        rw [List.get?_map, hget j hj]
        simp only [Option.map_some']
      have hjid : ((pts.map (linkParent tm)).get ⟨j, hj2⟩).id = g (s1.ctr + j) := by
        have h1 := List.get?_eq_get hj2
        rw [hgetj] at h1
        have h2 : linkParent tm (materializeTicket (g (s1.ctr + j)) now cb s1.boards
            s1.boardMap s1.sprintMap (w.get ⟨j, hj⟩))
            = (pts.map (linkParent tm)).get ⟨j, hj2⟩ := Option.some.inj h1
        rw [← h2, linkParent_id, materializeTicket_id]
      rw [hgeti]
      simp only [Option.map_some', Option.some.injEq]
      rw [linkParent_parent, materializeTicket_parent_tok, ← hp, if_pos htr,
        if_pos htr, hmg, hjid, hjv]
  · intro hor
    rw [hgeti]
    simp only [Option.map_some', Option.some.injEq]
    rw [linkParent_parent, materializeTicket_parent_tok, ← hp]
    cases htr : p.truthy with
    | false =>
      rw [if_neg (by simp [htr, JsVal.truthy])]
    | true =>
      have hnone : ∀ j, ¬ matchesTok w j p := by
        rcases hor with hfalse | hnone
        · rw [htr] at hfalse
          exact absurd hfalse (by simp)
        · exact hnone
      simp only [if_true]
      rw [if_pos htr]
      cases hlk : lookupLastId g w s1.ctr p with
      | some v =>
        exfalso
        obtain ⟨j, hj, hjt, hje, -⟩ := lookupLastId_some hlk
        exact hnone j ⟨hj, hjt, hje⟩
      | none =>
        have hmg : mapGet tm p = none := by
          rw [hmap p, hlk]
          rfl
        rw [hmg]

/-- Witness for C4 at a concrete import document. -/
theorem claim_c4_witness :
    ∃ s1 r, stage1 natGen wdoc = .ok s1 ∧
      parseJsonImport natGen "T" (some wdoc) none = .ok r ∧
      ∀ i (hi : i < (workingList wdoc s1.tagged).length),
        (((entryParentTok ((workingList wdoc s1.tagged).get ⟨i, hi⟩)).truthy = true ∧
            ∃ j, matchesTok (workingList wdoc s1.tagged) j
              (entryParentTok ((workingList wdoc s1.tagged).get ⟨i, hi⟩))) →
          ∃ j, ∃ hj2 : j < r.tickets.length,
            matchesTok (workingList wdoc s1.tagged) j
              (entryParentTok ((workingList wdoc s1.tagged).get ⟨i, hi⟩)) ∧
            (r.tickets.get? i).map Ticket.parent_id
              = some (JsVal.str (r.tickets.get ⟨j, hj2⟩).id)) ∧
        (((entryParentTok ((workingList wdoc s1.tagged).get ⟨i, hi⟩)).truthy = false ∨
            ∀ j, ¬ matchesTok (workingList wdoc s1.tagged) j
              (entryParentTok ((workingList wdoc s1.tagged).get ⟨i, hi⟩))) →
          (r.tickets.get? i).map Ticket.parent_id = some JsVal.null) := by
  obtain ⟨s1, hs1⟩ : ∃ s1, stage1 natGen wdoc = .ok s1 := ⟨_, rfl⟩
  obtain ⟨r, hr⟩ : ∃ r, parseJsonImport natGen "T" (some wdoc) none = .ok r := ⟨_, rfl⟩
  exact ⟨s1, r, hs1, hr, claim_c4_parent_linking hr hs1⟩

/-- C5 (amended): when the import produces at least one board and the
fallbackBoardId argument is absent or empty, every emitted ticket's
board_id references a board present in the same result batch. -/
theorem claim_c5_board_closure {g : Nat → String} {now : String}
    {parsed : Option JsVal} {cb : Option String} {r : ParsedResult}
    (h : parseJsonImport g now parsed cb = .ok r)
    (hf : optTruthy cb = false) (hb : r.boards ≠ []) :
    ∀ t ∈ r.tickets, ∃ b ∈ r.boards, t.board_id = some b.id := by
  cases parsed with
  | none => exact absurd h (by simp [parseJsonImport])
  | some d =>
    obtain ⟨s1, c, tm, pts, hnn, hs1, hpc, hpt, hr⟩ := parseJsonImport_ok h
    obtain ⟨hB, -, hK⟩ := stage1_maps hs1
    subst hr
    intro t ht
    simp only [List.mem_map] at ht
    obtain ⟨p, hp, hlink⟩ := ht
    obtain ⟨n, e, he, hpe⟩ := processTickets_mem hpt p hp
    rw [← hlink, linkParent_board_id, hpe, materializeTicket_board_id_eq,
      resolve_eq_boardIdSpec _ _ _ _ _ hK]
    unfold boardIdSpec
    cases hm1 : mapGet s1.boardMap (entryTag e) with
    | some v =>
      have := hB _ v hm1
      simp only [List.mem_map] at this
      obtain ⟨b, hbm, hbid⟩ := this
      exact ⟨b, hbm, by rw [hbid]⟩
    | none =>
      cases hm2 : mapGet s1.boardMap (jget e.1 "board_id") with
      | some v =>
        have := hB _ v hm2
        simp only [List.mem_map] at this
        obtain ⟨b, hbm, hbid⟩ := this
        exact ⟨b, hbm, by rw [hbid]⟩
      | none =>
        cases hh : s1.boards.head? with
        | none =>
          exfalso
          exact hb (by simpa using List.head?_eq_none_iff.mp hh)
        | some b0 =>
          have hmem : b0 ∈ s1.boards := List.mem_of_mem_head? hh
          cases cb with
          | none => exact ⟨b0, hmem, rfl⟩
          | some s =>
            have hs : s = "" := by
              unfold optTruthy at hf
              simpa using hf
            subst hs
            exact ⟨b0, hmem, by simp⟩

/-- Witness for C5's amended theorem at a concrete import document. -/
theorem claim_c5_witness :
    ∃ r, parseJsonImport natGen "T" (some wdoc) none = .ok r ∧
      r.boards ≠ [] ∧
      ∀ t ∈ r.tickets, ∃ b ∈ r.boards, t.board_id = some b.id := by
  obtain ⟨r, hr⟩ : ∃ r, parseJsonImport natGen "T" (some wdoc) none = .ok r := ⟨_, rfl⟩
  have h1 : (parseJsonImport natGen "T" (some wdoc) none).toOption.map
      (fun q => q.boards.length) = some 1 := rfl
  rw [hr] at h1
  simp only [Except.toOption, Option.map_some', Option.some.injEq] at h1
  have hb : r.boards ≠ [] := by
    intro hc
    rw [hc] at h1
    simp at h1
  exact ⟨r, hr, hb, claim_c5_board_closure hr rfl hb⟩

/-- C8 (amended): when the document carries a top-level tickets array, the
working ticket list is the top-level entries followed by the board-stage
tagged tickets (the push appends tagged tickets to the end of the existing
array), and the output tickets sequence is the in-order materialization
and linking of that concatenation. -/
theorem claim_c8_concat_order {g : Nat → String} {now : String} {d : JsVal}
    {cb : Option String} {r : ParsedResult} {s1 : Stage1Out}
    (h : parseJsonImport g now (some d) cb = .ok r)
    (hs1 : stage1 g d = .ok s1)
    (harr : (jget d "tickets").isArr = true) :
    workingList d s1.tagged = topTickets d ++ s1.tagged ∧
    r.tickets.length = (topTickets d).length + s1.tagged.length ∧
    ∃ tm, ∀ i (hi : i < (topTickets d ++ s1.tagged).length),
      r.tickets.get? i = some (linkParent tm (materializeTicket (g (s1.ctr + i)) now cb
        s1.boards s1.boardMap s1.sprintMap ((topTickets d ++ s1.tagged).get ⟨i, hi⟩))) := by
  obtain ⟨s1b, c, tm, pts, hnn, hs1b, hpc, hpt, hr⟩ := parseJsonImport_ok h
  rw [hs1] at hs1b
  injection hs1b with he
  subst he
  obtain ⟨-, hlen, hget⟩ := processTickets_ok_shape hpt
  subst hr
  have hwl : workingList d s1.tagged = topTickets d ++ s1.tagged := by
    unfold workingList
    rw [if_pos harr]
  refine ⟨hwl, ?_, tm, ?_⟩
  · show (pts.map (linkParent tm)).length = _
    rw [List.length_map, hlen, hwl, List.length_append]
  · intro i hi
    have hi2 : i < (workingList d s1.tagged).length := by rw [hwl]; exact hi
    show (pts.map (linkParent tm)).get? i = _
    rw [List.get?_map, hget i hi2]
    simp only [Option.map_some', Option.some.injEq]
    congr 1
    rw [← List.get_of_eq hwl.symm ⟨i, hi⟩]

/-- Witness for C8's amended theorem at a concrete import document. -/
theorem claim_c8_witness :
    ∃ s1 r, stage1 natGen c8doc = .ok s1 ∧
      parseJsonImport natGen "T" (some c8doc) none = .ok r ∧
      (workingList c8doc s1.tagged = topTickets c8doc ++ s1.tagged ∧
       r.tickets.length = (topTickets c8doc).length + s1.tagged.length ∧
       ∃ tm, ∀ i (hi : i < (topTickets c8doc ++ s1.tagged).length),
         r.tickets.get? i = some (linkParent tm (materializeTicket (natGen (s1.ctr + i))
           "T" none s1.boards s1.boardMap s1.sprintMap
           ((topTickets c8doc ++ s1.tagged).get ⟨i, hi⟩)))) := by
  obtain ⟨s1, hs1⟩ : ∃ s1, stage1 natGen c8doc = .ok s1 := ⟨_, rfl⟩
  obtain ⟨r, hr⟩ : ∃ r, parseJsonImport natGen "T" (some c8doc) none = .ok r := ⟨_, rfl⟩
  exact ⟨s1, r, hs1, hr, claim_c8_concat_order hr hs1 rfl⟩

theorem processSprintList_isOk {g : Nat → String} {bid : String} :
    ∀ {l : List JsVal} {ctr : Nat} {sm : List (JsVal × String)},
    (∃ out, processSprintList g bid l ctr sm = .ok out) ↔
      ∀ s ∈ l, s.isNullish = false := by
  intro l
  induction l with
  | nil =>
    intro ctr sm
    exact ⟨fun _ => by simp, fun _ => ⟨_, rfl⟩⟩
  | cons s rest ih =>
    intro ctr sm
    constructor
    · rintro ⟨out, h⟩ x hx
      simp only [processSprintList] at h
      split at h
      · exact absurd h (by simp)
      · rename_i hnull
        rcases List.mem_cons.mp hx with hx0 | hx1
        · subst hx0
          simpa using hnull
        · split at h
          · exact absurd h (by simp)
          · rename_i hrec
            exact (ih.mp ⟨_, hrec⟩) x hx1
    · intro hall
      have hnull : s.isNullish = false := hall s (List.mem_cons_self _ _)
      obtain ⟨⟨c2, m2, sps2⟩, hrec⟩ :=
        (@ih (ctr + 1)
          (if (jget s "id").truthy = true then (jget s "id", g ctr) :: sm else sm)).mpr
          (fun x hx => hall x (List.mem_cons_of_mem _ hx))
      refine ⟨?_, ?_⟩
      · exact (c2, m2,
          { id := g ctr
            board_id := bid
            name := orDefault (jget s "name") (.str "Imported Sprint")
            status := orDefault (jget s "status") (.str "future")
            goal := jget s "goal"
            start_date := jget s "start_date"
            end_date := jget s "end_date" } :: sps2)
      · simp only [processSprintList]
        rw [if_neg (by simp [hnull]), hrec]

theorem tagTickets_isOk {bid : JsVal} :
    ∀ {l : List JsVal},
    (∃ out, tagTickets bid l = .ok out) ↔ ∀ t ∈ l, t.isObjOrArr = true := by
  intro l
  induction l with
  | nil => exact ⟨fun _ => by simp, fun _ => ⟨_, rfl⟩⟩
  | cons t rest ih =>
    constructor
    · rintro ⟨out, h⟩ x hx
      rcases List.mem_cons.mp hx with hx0 | hx1
      · subst hx0
        cases x with
        | obj fs => rfl
        | arr xs => rfl
        | undefined => exact absurd h (by simp [tagTickets])
        | null => exact absurd h (by simp [tagTickets])
        | bool b => exact absurd h (by simp [tagTickets])
        | num n => exact absurd h (by simp [tagTickets])
        | str s => exact absurd h (by simp [tagTickets])
      · have hrest : ∃ out2, tagTickets bid rest = .ok out2 := by
          cases t with
          | obj fs =>
            simp only [tagTickets] at h
            cases hr : tagTickets bid rest with
            | error e => rw [hr] at h; exact absurd h (by simp)
            | ok l2 => exact ⟨l2, rfl⟩
          | arr xs =>
            simp only [tagTickets] at h
            cases hr : tagTickets bid rest with
            | error e => rw [hr] at h; exact absurd h (by simp)
            | ok l2 => exact ⟨l2, rfl⟩
          | undefined => exact absurd h (by simp [tagTickets])
          | null => exact absurd h (by simp [tagTickets])
          | bool b => exact absurd h (by simp [tagTickets])
          | num n => exact absurd h (by simp [tagTickets])
          | str s => exact absurd h (by simp [tagTickets])
        exact ih.mp hrest x hx1
    · intro hall
      obtain ⟨out2, hrec⟩ := ih.mpr (fun x hx => hall x (List.mem_cons_of_mem _ hx))
      have ht := hall t (List.mem_cons_self _ _)
      cases t with
      | obj fs => exact ⟨(JsVal.obj fs, some bid) :: out2, by
          simp only [tagTickets]; rw [hrec]⟩
      | arr xs => exact ⟨(JsVal.arr xs, some bid) :: out2, by
          simp only [tagTickets]; rw [hrec]⟩
      | undefined => exact absurd ht (by simp [JsVal.isObjOrArr])
      | null => exact absurd ht (by simp [JsVal.isObjOrArr])
      | bool b => exact absurd ht (by simp [JsVal.isObjOrArr])
      | num n => exact absurd ht (by simp [JsVal.isObjOrArr])
      | str s => exact absurd ht (by simp [JsVal.isObjOrArr])

theorem tagTickets_length {bid : JsVal} :
    ∀ {l : List JsVal} {tg : List (JsVal × Option JsVal)},
    tagTickets bid l = .ok tg → tg.length = l.length := by
  intro l
  induction l with
  | nil =>
    intro tg h
    simp only [tagTickets, Except.ok.injEq] at h
    subst h
    rfl
  | cons t rest ih =>
    intro tg h
    cases t with
    | obj fs =>
      simp only [tagTickets] at h
      cases hr : tagTickets bid rest with
      | error e => rw [hr] at h; exact absurd h (by simp)
      | ok l2 =>
        rw [hr] at h
        simp only [Except.ok.injEq] at h
        subst h
        simp [ih hr]
    | arr xs =>
      simp only [tagTickets] at h
      cases hr : tagTickets bid rest with
      | error e => rw [hr] at h; exact absurd h (by simp)
      | ok l2 =>
        rw [hr] at h
        simp only [Except.ok.injEq] at h
        subst h
        simp [ih hr]
    | undefined => exact absurd h (by simp [tagTickets])
    | null => exact absurd h (by simp [tagTickets])
    | bool b => exact absurd h (by simp [tagTickets])
    | num n => exact absurd h (by simp [tagTickets])
    | str s => exact absurd h (by simp [tagTickets])

theorem tagTickets_objArr {bid : JsVal} :
    ∀ {l : List JsVal} {tg : List (JsVal × Option JsVal)},
    tagTickets bid l = .ok tg → ∀ e ∈ tg, (e.1).isObjOrArr = true := by
  intro l
  induction l with
  | nil =>
    intro tg h e he
    simp only [tagTickets, Except.ok.injEq] at h
    subst h
    exact absurd he (by simp)
  | cons t rest ih =>
    intro tg h e he
    cases t with
    | obj fs =>
      simp only [tagTickets] at h
      cases hr : tagTickets bid rest with
      | error e2 => rw [hr] at h; exact absurd h (by simp)
      | ok l2 =>
        rw [hr] at h
        simp only [Except.ok.injEq] at h
        subst h
        rcases List.mem_cons.mp he with he0 | he1
        · rw [he0]; rfl
        · exact ih hr e he1
    | arr xs =>
      simp only [tagTickets] at h
      cases hr : tagTickets bid rest with
      | error e2 => rw [hr] at h; exact absurd h (by simp)
      | ok l2 =>
        rw [hr] at h
        simp only [Except.ok.injEq] at h
        subst h
        rcases List.mem_cons.mp he with he0 | he1
        · rw [he0]; rfl
        · exact ih hr e he1
    | undefined => exact absurd h (by simp [tagTickets])
    | null => exact absurd h (by simp [tagTickets])
    | bool b => exact absurd h (by simp [tagTickets])
    | num n => exact absurd h (by simp [tagTickets])
    | str s => exact absurd h (by simp [tagTickets])

theorem JsVal.elems_eq_nil {v : JsVal} (h : v.isArr = false) : v.elems = [] := by
  cases v <;> simp_all [JsVal.isArr, JsVal.elems]

theorem boardNoThrow_iff {b : JsVal} :
    boardNoThrow b = true ↔
      b.isNullish = false ∧ (∀ s ∈ (jget b "sprints").elems, s.isNullish = false) ∧
      (∀ t ∈ (jget b "tickets").elems, t.isObjOrArr = true) := by
  simp only [boardNoThrow, List.all_eq_true, Bool.and_eq_true, Bool.not_eq_true']
  tauto

theorem processBoards_isOk {g : Nat → String} :
    ∀ {l : List JsVal} {ctr : Nat} {bm sm : List (JsVal × String)},
    (∃ s1, processBoards g l ctr bm sm = .ok s1) ↔ ∀ b ∈ l, boardNoThrow b = true := by
  intro l
  induction l with
  | nil =>
    intro ctr bm sm
    exact ⟨fun _ => by simp, fun _ => ⟨_, rfl⟩⟩
  | cons b rest ih =>
    intro ctr bm sm
    constructor
    · rintro ⟨s1, h⟩
      simp only [processBoards] at h
      split at h
      · exact absurd h (by simp)
      · rename_i hnull
        cases hspr : (if (jget b "sprints").isArr = true
            then processSprintList g (g ctr) (jget b "sprints").elems (ctr + 1) sm
            else Except.ok (ctr + 1, sm, [])) with
        | error e => rw [hspr] at h; exact absurd h (by simp)
        | ok tri =>
          obtain ⟨c2, sm2, sps⟩ := tri
          rw [hspr] at h
          simp only [] at h
          cases htag : (if (jget b "tickets").isArr = true
              then tagTickets (jget b "id") (jget b "tickets").elems
              else Except.ok []) with
          | error e => rw [htag] at h; exact absurd h (by simp)
          | ok tg =>
            rw [htag] at h
            simp only [] at h
            cases hrec : processBoards g rest c2
                (if (jget b "id").truthy = true then (jget b "id", g ctr) :: bm else bm)
                sm2 with
            | error e => rw [hrec] at h; exact absurd h (by simp)
            | ok out =>
              intro x hx
              rcases List.mem_cons.mp hx with hx0 | hx1
              · subst hx0
                refine boardNoThrow_iff.mpr ⟨by simpa using hnull, ?_, ?_⟩
                · by_cases harr : (jget x "sprints").isArr = true
                  · rw [if_pos harr] at hspr
                    exact processSprintList_isOk.mp ⟨_, hspr⟩
                  · intro s hs
                    rw [JsVal.elems_eq_nil (by simpa using harr)] at hs
                    exact absurd hs (by simp)
                · by_cases harr : (jget x "tickets").isArr = true
                  · rw [if_pos harr] at htag
                    exact tagTickets_isOk.mp ⟨_, htag⟩
                  · intro t ht
                    rw [JsVal.elems_eq_nil (by simpa using harr)] at ht
                    exact absurd ht (by simp)
              · exact ih.mp ⟨out, hrec⟩ x hx1
    · intro hall
      obtain ⟨hnull, hsall, htall⟩ := boardNoThrow_iff.mp (hall b (List.mem_cons_self _ _))
      obtain ⟨⟨c2, sm2, sps⟩, hspr⟩ : ∃ out,
          (if (jget b "sprints").isArr = true
           then processSprintList g (g ctr) (jget b "sprints").elems (ctr + 1) sm
           else Except.ok (ctr + 1, sm, [])) = .ok out := by
        by_cases harr : (jget b "sprints").isArr = true
        · rw [if_pos harr]
          exact processSprintList_isOk.mpr hsall
        · rw [if_neg harr]
          exact ⟨_, rfl⟩
      obtain ⟨tg, htag⟩ : ∃ out,
          (if (jget b "tickets").isArr = true
           then tagTickets (jget b "id") (jget b "tickets").elems
           else Except.ok []) = .ok out := by
        by_cases harr : (jget b "tickets").isArr = true
        · rw [if_pos harr]
          exact tagTickets_isOk.mpr htall
        · rw [if_neg harr]
          exact ⟨_, rfl⟩
      obtain ⟨out, hrec⟩ := (@ih c2
          (if (jget b "id").truthy = true then (jget b "id", g ctr) :: bm else bm)
          sm2).mpr (fun x hx => hall x (List.mem_cons_of_mem _ hx))
      refine ⟨⟨out.ctr, out.boardMap, out.sprintMap,
        { id := g ctr
          name := orDefault (jget b "name") (.str "Imported Project")
          key := orDefault (jget b "key") (.str "IMP")
          type := orDefault (jget b "type") (.str "kanban")
          columns := orDefault (jget b "columns") (.arr []) } :: out.boards,
        sps ++ out.sprints, tg ++ out.tagged⟩, ?_⟩
      simp only [processBoards]
      rw [if_neg (by simp [hnull]), hspr]
      simp only []
      rw [htag]
      simp only []
      rw [hrec]

theorem processTickets_isOk {g : Nat → String} {now : String} {cb : Option String}
    {bs : List Board} {bm sm : List (JsVal × String)} :
    ∀ {l : List (JsVal × Option JsVal)} {ctr : Nat} {tm : List (JsVal × String)},
    (∃ out, processTickets g now cb bs bm sm l ctr tm = .ok out) ↔
      ∀ e ∈ l, (e.1).isNullish = false := by
  intro l
  induction l with
  | nil =>
    intro ctr tm
    exact ⟨fun _ => by simp, fun _ => ⟨_, rfl⟩⟩
  | cons e rest ih =>
    intro ctr tm
    constructor
    · rintro ⟨out, h⟩ x hx
      simp only [processTickets] at h
      split at h
      · exact absurd h (by simp)
      · rename_i hnull
        rcases List.mem_cons.mp hx with hx0 | hx1
        · subst hx0
          simpa using hnull
        · split at h
          · exact absurd h (by simp)
          · rename_i hrec
            exact (ih.mp ⟨_, hrec⟩) x hx1
    · intro hall
      have hnull : (e.1).isNullish = false := hall e (List.mem_cons_self _ _)
      obtain ⟨⟨c2, m2, ps2⟩, hrec⟩ :=
        (@ih (ctr + 1)
          (if (jget e.1 "id").truthy = true then (jget e.1 "id", g ctr) :: tm else tm)).mpr
          (fun x hx => hall x (List.mem_cons_of_mem _ hx))
      refine ⟨(c2, m2, materializeTicket (g ctr) now cb bs bm sm e :: ps2), ?_⟩
      simp only [processTickets]
      rw [if_neg (by simp [hnull]), hrec]

theorem processSprintList_error {g : Nat → String} {bid : String} :
    ∀ {l : List JsVal} {ctr : Nat} {sm : List (JsVal × String)} {e : String},
    processSprintList g bid l ctr sm = .error e → e = "TypeError" := by
  intro l
  induction l with
  | nil => intro ctr sm e h; exact absurd h (by simp [processSprintList])
  | cons s rest ih =>
    intro ctr sm e h
    simp only [processSprintList] at h
    split at h
    · simpa using h.symm
    · split at h
      · rename_i e2 hrec
        simp only [Except.error.injEq] at h
        subst h
        exact ih hrec
      · exact absurd h (by simp)

theorem tagTickets_error {bid : JsVal} :
    ∀ {l : List JsVal} {e : String},
    tagTickets bid l = .error e → e = "TypeError" := by
  intro l
  induction l with
  | nil => intro e h; exact absurd h (by simp [tagTickets])
  | cons t rest ih =>
    intro e h
    cases t with
    | obj fs =>
      simp only [tagTickets] at h
      cases hr : tagTickets bid rest with
      | error e2 =>
        rw [hr] at h
        simp only [Except.error.injEq] at h
        subst h
        exact ih hr
      | ok l2 => rw [hr] at h; exact absurd h (by simp)
    | arr xs =>
      simp only [tagTickets] at h
      cases hr : tagTickets bid rest with
      | error e2 =>
        rw [hr] at h
        simp only [Except.error.injEq] at h
        subst h
        exact ih hr
      | ok l2 => rw [hr] at h; exact absurd h (by simp)
    | undefined => simp only [tagTickets, Except.error.injEq] at h; exact h.symm
    | null => simp only [tagTickets, Except.error.injEq] at h; exact h.symm
    | bool b => simp only [tagTickets, Except.error.injEq] at h; exact h.symm
    | num n => simp only [tagTickets, Except.error.injEq] at h; exact h.symm
    | str s => simp only [tagTickets, Except.error.injEq] at h; exact h.symm

theorem processBoards_error {g : Nat → String} :
    ∀ {l : List JsVal} {ctr : Nat} {bm sm : List (JsVal × String)} {e : String},
    processBoards g l ctr bm sm = .error e → e = "TypeError" := by
  intro l
  induction l with
  | nil => intro ctr bm sm e h; exact absurd h (by simp [processBoards])
  | cons b rest ih =>
    intro ctr bm sm e h
    simp only [processBoards] at h
    split at h
    · simpa using h.symm
    · cases hspr : (if (jget b "sprints").isArr = true
          then processSprintList g (g ctr) (jget b "sprints").elems (ctr + 1) sm
          else Except.ok (ctr + 1, sm, [])) with
      | error e2 =>
        rw [hspr] at h
        simp only [Except.error.injEq] at h
        subst h
        by_cases harr : (jget b "sprints").isArr = true
        · rw [if_pos harr] at hspr
          exact processSprintList_error hspr
        · rw [if_neg harr] at hspr
          exact absurd hspr (by simp)
      | ok tri =>
        obtain ⟨c2, sm2, sps⟩ := tri
        rw [hspr] at h
        simp only [] at h
        cases htag : (if (jget b "tickets").isArr = true
            then tagTickets (jget b "id") (jget b "tickets").elems
            else Except.ok []) with
        | error e2 =>
          rw [htag] at h
          simp only [Except.error.injEq] at h
          subst h
          by_cases harr : (jget b "tickets").isArr = true
          · rw [if_pos harr] at htag
            exact tagTickets_error htag
          · rw [if_neg harr] at htag
            exact absurd htag (by simp)
        | ok tg =>
          rw [htag] at h
          simp only [] at h
          cases hrec : processBoards g rest c2
              (if (jget b "id").truthy = true then (jget b "id", g ctr) :: bm else bm)
              sm2 with
          | error e2 =>
            rw [hrec] at h
            simp only [Except.error.injEq] at h
            subst h
            exact ih hrec
          | ok out => rw [hrec] at h; exact absurd h (by simp)

theorem processTickets_error {g : Nat → String} {now : String} {cb : Option String}
    {bs : List Board} {bm sm : List (JsVal × String)} :
    ∀ {l : List (JsVal × Option JsVal)} {ctr : Nat} {tm : List (JsVal × String)}
      {e : String},
    processTickets g now cb bs bm sm l ctr tm = .error e → e = "TypeError" := by
  intro l
  induction l with
  | nil => intro ctr tm e h; exact absurd h (by simp [processTickets])
  | cons x rest ih =>
    intro ctr tm e h
    simp only [processTickets] at h
    split at h
    · simpa using h.symm
    · split at h
      · rename_i e2 hrec
        simp only [Except.error.injEq] at h
        subst h
        exact ih hrec
      · exact absurd h (by simp)

theorem stage1_error {g : Nat → String} {d : JsVal} {e : String}
    (h : stage1 g d = .error e) : e = "TypeError" := by
  unfold stage1 at h
  split at h
  · exact processBoards_error h
  · exact absurd h (by simp)

theorem stage1_isOk {g : Nat → String} {d : JsVal} :
    (∃ s1, stage1 g d = .ok s1) ↔
      ∀ b ∈ (jget d "boards").elems, boardNoThrow b = true := by
  unfold stage1
  by_cases harr : (jget d "boards").isArr = true
  · rw [if_pos harr]
    exact processBoards_isOk
  · rw [if_neg harr]
    constructor
    · intro _ b hb
      rw [JsVal.elems_eq_nil (by simpa using harr)] at hb
      exact absurd hb (by simp)
    · intro _
      exact ⟨_, rfl⟩

theorem isObjOrArr_not_nullish {v : JsVal} (h : v.isObjOrArr = true) :
    v.isNullish = false := by
  cases v <;> simp_all [JsVal.isObjOrArr, JsVal.isNullish]

theorem processBoards_tagged {g : Nat → String} :
    ∀ {l : List JsVal} {ctr : Nat} {bm sm : List (JsVal × String)} {s1 : Stage1Out},
    processBoards g l ctr bm sm = .ok s1 →
    (∀ e ∈ s1.tagged, (e.1).isObjOrArr = true) ∧
    (s1.tagged = [] ↔ ∀ b ∈ l, (jget b "tickets").elems = []) := by
  intro l
  induction l with
  | nil =>
    intro ctr bm sm s1 h
    simp only [processBoards, Except.ok.injEq] at h
    subst h
    exact ⟨fun e he => absurd he (by simp), by simp⟩
  | cons b rest ih =>
    intro ctr bm sm s1 h
    simp only [processBoards] at h
    split at h
    · exact absurd h (by simp)
    · cases hspr : (if (jget b "sprints").isArr = true
          then processSprintList g (g ctr) (jget b "sprints").elems (ctr + 1) sm
          else Except.ok (ctr + 1, sm, [])) with
      | error e => rw [hspr] at h; exact absurd h (by simp)
      | ok tri =>
        obtain ⟨c2, sm2, sps⟩ := tri
        rw [hspr] at h
        simp only [] at h
        cases htag : (if (jget b "tickets").isArr = true
            then tagTickets (jget b "id") (jget b "tickets").elems
            else Except.ok []) with
        | error e => rw [htag] at h; exact absurd h (by simp)
        | ok tg =>
          rw [htag] at h
          simp only [] at h
          cases hrec : processBoards g rest c2
              (if (jget b "id").truthy = true then (jget b "id", g ctr) :: bm else bm)
              sm2 with
          | error e => rw [hrec] at h; exact absurd h (by simp)
          | ok out =>
            rw [hrec] at h
            simp only [Except.ok.injEq] at h
            subst h
            obtain ⟨ihO, ihE⟩ := ih hrec
            have htg : (∀ e ∈ tg, (e.1).isObjOrArr = true) ∧
                (tg = [] ↔ (jget b "tickets").elems = []) := by
              by_cases harr : (jget b "tickets").isArr = true
              · rw [if_pos harr] at htag
                refine ⟨tagTickets_objArr htag, ?_⟩
                have hlen := tagTickets_length htag
                constructor
                · intro h0
                  rw [h0] at hlen
                  exact List.length_eq_zero.mp hlen.symm
                · intro h0
                  rw [h0] at hlen
                  exact List.length_eq_zero.mp hlen
              · rw [if_neg harr] at htag
                simp only [Except.ok.injEq] at htag
                subst htag
                refine ⟨fun e he => absurd he (by simp), ?_⟩
                rw [JsVal.elems_eq_nil (by simpa using harr)]
                simp
            refine ⟨?_, ?_⟩
            · intro e he
              rcases List.mem_append.mp he with he0 | he1
              · exact htg.1 e he0
              · exact ihO e he1
            · rw [List.append_eq_nil]
              constructor
              · rintro ⟨h1, h2⟩ x hx
                rcases List.mem_cons.mp hx with hx0 | hx1
                · subst hx0
                  exact htg.2.mp h1
                · exact ihE.mp h2 x hx1
              · intro hall
                exact ⟨htg.2.mpr (hall b (List.mem_cons_self _ _)),
                  ihE.mpr (fun x hx => hall x (List.mem_cons_of_mem _ hx))⟩

theorem stage1_tagged {g : Nat → String} {d : JsVal} {s1 : Stage1Out}
    (h : stage1 g d = .ok s1) :
    (∀ e ∈ s1.tagged, (e.1).isObjOrArr = true) ∧
    (s1.tagged = [] ↔ ∀ b ∈ (jget d "boards").elems, (jget b "tickets").elems = []) := by
  unfold stage1 at h
  split at h
  · exact processBoards_tagged h
  · simp only [Except.ok.injEq] at h
    subst h
    refine ⟨fun e he => absurd he (by simp), ?_⟩
    rename_i harr
    constructor
    · intro _ b hb
      rw [JsVal.elems_eq_nil (by simpa using harr)] at hb
      exact absurd hb (by simp)
    · intro _
      rfl

/-- C1 (amended): reconcile fails with ParseError exactly when the raw
text cannot be deserialized; among deserialized documents it returns a
result precisely on the non-throwing shapes characterized by `noThrow`
(document not null, board entries and their sprint entries non-null,
nested ticket entries objects or arrays, no tagged push onto a truthy
non-array top-level tickets value, top-level ticket entries non-null);
any other deserialized document makes the call throw a runtime TypeError,
never the ParseError; on failure no partial result is returned (the
return type carries either the error or a complete result). -/
theorem claim_c1_parse_characterization (g : Nat → String) (now : String)
    (cb : Option String) :
    (parseJsonImport g now none cb = .error "Invalid JSON format") ∧
    (∀ d, parseJsonImport g now (some d) cb ≠ .error "Invalid JSON format") ∧
    (∀ d, (∃ r, parseJsonImport g now (some d) cb = .ok r) ↔ noThrow d = true) := by
  refine ⟨rfl, ?_, ?_⟩
  · -- a deserialized document never raises the ParseError
    intro d h
    simp only [parseJsonImport] at h
    by_cases hnn : d.isNullish = true
    · rw [if_pos hnn] at h
      simp only [Except.error.injEq] at h
      exact absurd h (by decide)
    · rw [if_neg hnn] at h
      cases hs1 : stage1 g d with
      | error e =>
        rw [hs1] at h
        simp only [Except.error.injEq] at h
        exact absurd (h.symm.trans (stage1_error hs1)) (by decide)
      | ok s1 =>
        rw [hs1] at h
        simp only [] at h
        by_cases hc : (!s1.tagged.isEmpty && (jget d "tickets").truthy
            && !((jget d "tickets").isArr)) = true
        · rw [if_pos hc] at h
          simp only [Except.error.injEq] at h
          exact absurd h (by decide)
        · rw [if_neg hc] at h
          cases hpt : processTickets g now cb s1.boards s1.boardMap s1.sprintMap
              (workingList d s1.tagged) s1.ctr [] with
          | error e =>
            rw [hpt] at h
            simp only [Except.error.injEq] at h
            exact absurd (h.symm.trans (processTickets_error hpt)) (by decide)
          | ok out =>
            obtain ⟨c, tm, pts⟩ := out
            rw [hpt] at h
            exact absurd h (by simp)
  · intro d
    constructor
    · rintro ⟨r, h⟩
      obtain ⟨s1, c, tm, pts, hnn, hs1, hpc, hpt, hr⟩ := parseJsonImport_ok h
      have hball : ∀ b ∈ (jget d "boards").elems, boardNoThrow b = true :=
        stage1_isOk.mp ⟨s1, hs1⟩
      have htk : ∀ e ∈ workingList d s1.tagged, (e.1).isNullish = false :=
        processTickets_isOk.mp ⟨_, hpt⟩
      simp only [noThrow, Bool.and_eq_true]
      refine ⟨⟨⟨?_, ?_⟩, ?_⟩, ?_⟩
      · simp [hnn]
      · exact List.all_eq_true.mpr hball
      · cases hany : (jget d "boards").elems.any
            (fun b => !((jget b "tickets").elems.isEmpty)) with
        | false => simp
        | true =>
          obtain ⟨b, hbmem, hbne⟩ := List.any_eq_true.mp hany
          have htne : s1.tagged ≠ [] := by
            intro h0
            have h1 := (stage1_tagged hs1).2.mp h0 b hbmem
            rw [h1] at hbne
            simp at hbne
          have hie : s1.tagged.isEmpty = false := by
            cases h0 : s1.tagged with
            | nil => exact absurd h0 htne
            | cons a l => rfl
          rw [hie] at hpc
          simp only [Bool.not_false, Bool.true_and] at hpc
          simp only [Bool.not_true, Bool.false_or, Bool.not_eq_true']
          exact hpc
      · refine List.all_eq_true.mpr ?_
        intro t ht
        simp only [Bool.not_eq_true']
        by_cases harr : (jget d "tickets").isArr = true
        · apply htk (t, none)
          unfold workingList
          rw [if_pos harr]
          apply List.mem_append_left
          unfold topTickets
          rw [if_pos harr]
          exact List.mem_map_of_mem _ ht
        · rw [JsVal.elems_eq_nil (by simpa using harr)] at ht
          exact absurd ht (by simp)
    · intro hno
      simp only [noThrow, Bool.and_eq_true] at hno
      obtain ⟨⟨⟨hA, hB⟩, hC⟩, hD⟩ := hno
      have hnn : d.isNullish = false := by simpa using hA
      obtain ⟨s1, hs1⟩ : ∃ s1, stage1 g d = .ok s1 :=
        stage1_isOk.mpr (List.all_eq_true.mp hB)
      obtain ⟨hobjarr, hempty⟩ := stage1_tagged hs1
      have hguard : (!s1.tagged.isEmpty && (jget d "tickets").truthy
          && !((jget d "tickets").isArr)) = false := by
        cases hte : s1.tagged.isEmpty with
        | true => simp
        | false =>
          have htne : s1.tagged ≠ [] := by
            intro h0
            rw [h0] at hte
            simp at hte
          have hany : (jget d "boards").elems.any
              (fun b => !((jget b "tickets").elems.isEmpty)) = true := by
            rcases Classical.em (∀ b ∈ (jget d "boards").elems,
                (jget b "tickets").elems = []) with hall | hnall
            · exact absurd (hempty.mpr hall) htne
            · push_neg at hnall
              obtain ⟨b, hbmem, hbne⟩ := hnall
              refine List.any_eq_true.mpr ⟨b, hbmem, ?_⟩
              simp only [Bool.not_eq_true']
              cases h0 : (jget b "tickets").elems with
              | nil => exact absurd h0 hbne
              | cons a l => rfl
          rw [hany] at hC
          simp only [Bool.not_true, Bool.false_or, Bool.not_eq_true'] at hC
          simp [hC]
      have hwork : ∀ e ∈ workingList d s1.tagged, (e.1).isNullish = false := by
        intro e he
        unfold workingList at he
        by_cases harr : (jget d "tickets").isArr = true
        · rw [if_pos harr] at he
          rcases List.mem_append.mp he with he0 | he1
          · unfold topTickets at he0
            rw [if_pos harr] at he0
            simp only [List.mem_map] at he0
            obtain ⟨t, ht, hte⟩ := he0
            rw [← hte]
            have := List.all_eq_true.mp hD t ht
            simpa using this
          · exact isObjOrArr_not_nullish (hobjarr e he1)
        · rw [if_neg harr] at he
          exact isObjOrArr_not_nullish (hobjarr e he)
      obtain ⟨⟨c, tm, pts⟩, hpt⟩ := processTickets_isOk.mpr hwork
      refine ⟨{ boards := s1.boards
                sprints := s1.sprints
                tickets := pts.map (linkParent tm)
                stats :=
                  { boards := s1.boards.length
                    sprints := s1.sprints.length
                    tickets := (pts.map (linkParent tm)).length } }, ?_⟩
      simp only [parseJsonImport]
      rw [if_neg (by simp [hnn]), hs1]
      simp only []
      rw [hguard]
      simp only [Bool.false_eq_true, if_false]
      rw [hpt]

/-- Witness for C1 at concrete inputs. -/
theorem claim_c1_witness :
    parseJsonImport natGen "T" none none = .error "Invalid JSON format" ∧
    (parseJsonImport natGen "T" (some wdoc) none ≠ .error "Invalid JSON format") ∧
    ((∃ r, parseJsonImport natGen "T" (some wdoc) none = .ok r) ↔ noThrow wdoc = true) :=
  ⟨(claim_c1_parse_characterization natGen "T" none).1,
   (claim_c1_parse_characterization natGen "T" none).2.1 wdoc,
   (claim_c1_parse_characterization natGen "T" none).2.2 wdoc⟩

theorem mapGet_mapVals (ρ : String → String) :
    ∀ (m : List (JsVal × String)) (k : JsVal),
    mapGet (mapVals ρ m) k = (mapGet m k).map ρ := by
  intro m
  induction m with
  | nil => intro k; rfl
  | cons p rest ih =>
    intro k
    obtain ⟨k0, v0⟩ := p
    show mapGet ((k0, ρ v0) :: mapVals ρ rest) k = _
    rw [mapGet_cons, mapGet_cons]
    by_cases he : JsVal.eqb k0 k = true
    · rw [if_pos he, if_pos he]
      rfl
    · rw [if_neg he, if_neg he]
      exact ih k

theorem processSprintList_rel (g1 g2 : Nat → String) (ρ : String → String)
    (hρ : ∀ k, ρ (g1 k) = g2 k) (bid : String) :
    ∀ (l : List JsVal) (ctr : Nat) (sm : List (JsVal × String)),
    processSprintList g2 (ρ bid) l ctr (mapVals ρ sm)
      = (processSprintList g1 bid l ctr sm).map
          (fun out => (out.1, mapVals ρ out.2.1, out.2.2.map (mapSprintIds ρ))) := by
  intro l
  induction l with
  | nil => intro ctr sm; rfl
  | cons s rest ih =>
    intro ctr sm
    simp only [processSprintList]
    by_cases hn : s.isNullish = true
    · rw [if_pos hn, if_pos hn]
      rfl
    · rw [if_neg hn, if_neg hn]
      have hsm2 : (if (jget s "id").truthy = true
            then (jget s "id", g2 ctr) :: mapVals ρ sm else mapVals ρ sm)
          = mapVals ρ (if (jget s "id").truthy = true
            then (jget s "id", g1 ctr) :: sm else sm) := by
        by_cases ht : (jget s "id").truthy = true
        · rw [if_pos ht, if_pos ht]
          show _ = (jget s "id", ρ (g1 ctr)) :: mapVals ρ sm
          rw [hρ]
        · rw [if_neg ht, if_neg ht]
      rw [hsm2, ih]
      cases hrec : processSprintList g1 bid rest (ctr + 1)
          (if (jget s "id").truthy = true then (jget s "id", g1 ctr) :: sm else sm) with
      | error e => rfl
      | ok out =>
        obtain ⟨c2, m2, sps2⟩ := out
        simp only [Except.map, List.map_cons, mapSprintIds]
        rw [← hρ ctr]

theorem processBoards_rel (g1 g2 : Nat → String) (ρ : String → String)
    (hρ : ∀ k, ρ (g1 k) = g2 k) :
    ∀ (l : List JsVal) (ctr : Nat) (bm sm : List (JsVal × String)),
    processBoards g2 l ctr (mapVals ρ bm) (mapVals ρ sm)
      = (processBoards g1 l ctr bm sm).map (mapStage1Ids ρ) := by
  intro l
  induction l with
  | nil => intro ctr bm sm; rfl
  | cons b rest ih =>
    intro ctr bm sm
    simp only [processBoards]
    by_cases hn : b.isNullish = true
    · rw [if_pos hn, if_pos hn]
      rfl
    · rw [if_neg hn, if_neg hn]
      have hsprif : (if (jget b "sprints").isArr = true
            then processSprintList g2 (g2 ctr) (jget b "sprints").elems (ctr + 1)
              (mapVals ρ sm)
            else Except.ok (ctr + 1, mapVals ρ sm, []))
          = (if (jget b "sprints").isArr = true
             then processSprintList g1 (g1 ctr) (jget b "sprints").elems (ctr + 1) sm
             else Except.ok (ctr + 1, sm, [])).map
              (fun out => (out.1, mapVals ρ out.2.1, out.2.2.map (mapSprintIds ρ))) := by
        by_cases harr : (jget b "sprints").isArr = true
        · rw [if_pos harr, if_pos harr, ← hρ ctr]
          exact processSprintList_rel g1 g2 ρ hρ (g1 ctr) _ _ _
        · rw [if_neg harr, if_neg harr]
          rfl
      rw [hsprif]
      cases hspr : (if (jget b "sprints").isArr = true
          then processSprintList g1 (g1 ctr) (jget b "sprints").elems (ctr + 1) sm
          else Except.ok (ctr + 1, sm, [])) with
      | error e => rfl
      | ok tri =>
        obtain ⟨c2, sm2, sps⟩ := tri
        simp only [Except.map]
        cases htag : (if (jget b "tickets").isArr = true
            then tagTickets (jget b "id") (jget b "tickets").elems
            else Except.ok []) with
        | error e => rfl
        | ok tg =>
          have hbm2 : (if (jget b "id").truthy = true
                then (jget b "id", g2 ctr) :: mapVals ρ bm else mapVals ρ bm)
              = mapVals ρ (if (jget b "id").truthy = true
                then (jget b "id", g1 ctr) :: bm else bm) := by
            by_cases ht : (jget b "id").truthy = true
            · rw [if_pos ht, if_pos ht]
              show _ = (jget b "id", ρ (g1 ctr)) :: mapVals ρ bm
              rw [hρ]
            · rw [if_neg ht, if_neg ht]
          rw [hbm2, ih]
          cases hrec : processBoards g1 rest c2
              (if (jget b "id").truthy = true then (jget b "id", g1 ctr) :: bm else bm)
              sm2 with
          | error e => rfl
          | ok out =>
            simp only [Except.map, mapStage1Ids, mapBoardIds, List.map_cons,
              List.map_append]
            rw [← hρ ctr]

theorem headOpt_map_boards (ρ : String → String) (bs : List Board) :
    (bs.map (mapBoardIds ρ)).head? = (bs.head?).map (mapBoardIds ρ) := by
  cases bs <;> rfl

theorem ifchain_map (ρ : String → String) (t1 t2 : Bool) (A B C C2 : Option String)
    (hC : C2 = Option.map ρ C) :
    (if (t1 && (Option.map ρ A).isSome) = true then Option.map ρ A
     else if (t2 && (Option.map ρ B).isSome) = true then Option.map ρ B
     else C2)
      = Option.map ρ
          (if (t1 && A.isSome) = true then A
           else if (t2 && B.isSome) = true then B
           else C) := by
  cases t1 <;> cases t2 <;> cases A <;> cases B <;> simp [hC]

theorem if1_map (ρ : String → String) (t : Bool) (A : Option String) :
    (if (t && (Option.map ρ A).isSome) = true then Option.map ρ A else none)
      = Option.map ρ (if (t && A.isSome) = true then A else none) := by
  cases t <;> cases A <;> simp

theorem materializeTicket_rel (ρ : String → String) {cb : Option String}
    (hc : ∀ v, cb = some v → ρ v = v) (nid now : String) (bs : List Board)
    (bm sm : List (JsVal × String)) (e : JsVal × Option JsVal) :
    materializeTicket (ρ nid) now cb (bs.map (mapBoardIds ρ)) (mapVals ρ bm)
        (mapVals ρ sm) e
      = mapTicketPass1 ρ (materializeTicket nid now cb bs bm sm e) := by
  have hcb : Option.map ρ cb = cb := by
    cases cb with
    | none => rfl
    | some v => show some (ρ v) = some v; rw [hc v rfl]
  have hC : (if (!(optTruthy cb)) = true then
        match (bs.map (mapBoardIds ρ)).head? with
        | some b0 => some b0.id
        | none => cb
      else cb)
      = Option.map ρ
          (if (!(optTruthy cb)) = true then
            match bs.head? with
            | some b0 => some b0.id
            | none => cb
          else cb) := by
    by_cases h3 : (!(optTruthy cb)) = true
    · rw [if_pos h3, if_pos h3, headOpt_map_boards]
      cases bs.head? with
      | none => exact hcb.symm
      | some b0 => rfl
    · rw [if_neg h3, if_neg h3]
      exact hcb.symm
  unfold materializeTicket mapTicketPass1
  simp only [mapGet_mapVals]
  congr 1
  · exact ifchain_map ρ _ _ _ _ _ _ hC
  · exact if1_map ρ _ _

theorem processTickets_rel (g1 g2 : Nat → String) (ρ : String → String)
    (hρ : ∀ k, ρ (g1 k) = g2 k) {cb : Option String}
    (hc : ∀ v, cb = some v → ρ v = v) (now : String) (bs : List Board)
    (bm sm : List (JsVal × String)) :
    ∀ (l : List (JsVal × Option JsVal)) (ctr : Nat) (tm : List (JsVal × String)),
    processTickets g2 now cb (bs.map (mapBoardIds ρ)) (mapVals ρ bm) (mapVals ρ sm)
        l ctr (mapVals ρ tm)
      = (processTickets g1 now cb bs bm sm l ctr tm).map
          (fun out => (out.1, mapVals ρ out.2.1, out.2.2.map (mapTicketPass1 ρ))) := by
  intro l
  induction l with
  | nil => intro ctr tm; rfl
  | cons e rest ih =>
    intro ctr tm
    simp only [processTickets]
    by_cases hn : e.1.isNullish = true
    · rw [if_pos hn, if_pos hn]
      rfl
    · rw [if_neg hn, if_neg hn]
      have htm2 : (if (jget e.1 "id").truthy = true
            then (jget e.1 "id", g2 ctr) :: mapVals ρ tm else mapVals ρ tm)
          = mapVals ρ (if (jget e.1 "id").truthy = true
            then (jget e.1 "id", g1 ctr) :: tm else tm) := by
        by_cases ht : (jget e.1 "id").truthy = true
        · rw [if_pos ht, if_pos ht]
          show _ = (jget e.1 "id", ρ (g1 ctr)) :: mapVals ρ tm
          rw [hρ]
        · rw [if_neg ht, if_neg ht]
      rw [htm2, ih]
      cases hrec : processTickets g1 now cb bs bm sm rest (ctr + 1)
          (if (jget e.1 "id").truthy = true then (jget e.1 "id", g1 ctr) :: tm else tm) with
      | error er => rfl
      | ok out =>
        obtain ⟨c2, m2, ps2⟩ := out
        simp only [Except.map, List.map_cons]
        rw [← hρ ctr, materializeTicket_rel ρ hc]

theorem linkParent_rel (ρ : String → String) (tm : List (JsVal × String)) (p : Ticket) :
    linkParent (mapVals ρ tm) (mapTicketPass1 ρ p) = mapTicketIds ρ (linkParent tm p) := by
  unfold linkParent mapTicketIds mapTicketPass1 mapParentVal
  simp only [mapGet_mapVals]
  congr 1
  by_cases ht : p.parent_id.truthy = true
  · rw [if_pos ht, if_pos ht]
    cases hm : mapGet tm p.parent_id with
    | none => rfl
    | some nid => rfl
  · rw [if_neg ht, if_neg ht]

theorem stage1_rel (g1 g2 : Nat → String) (ρ : String → String)
    (hρ : ∀ k, ρ (g1 k) = g2 k) (d : JsVal) :
    stage1 g2 d = (stage1 g1 d).map (mapStage1Ids ρ) := by
  unfold stage1
  by_cases harr : (jget d "boards").isArr = true
  · rw [if_pos harr, if_pos harr]
    exact processBoards_rel g1 g2 ρ hρ (jget d "boards").elems 0 [] []
  · rw [if_neg harr, if_neg harr]
    rfl

theorem parseJsonImport_rel (g1 g2 : Nat → String) (ρ : String → String)
    (hρ : ∀ k, ρ (g1 k) = g2 k) (now : String) (parsed : Option JsVal)
    {cb : Option String} (hc : ∀ v, cb = some v → ρ v = v) :
    parseJsonImport g2 now parsed cb
      = (parseJsonImport g1 now parsed cb).map (mapParsedIds ρ) := by
  cases parsed with
  | none => rfl
  | some d =>
    simp only [parseJsonImport]
    by_cases hnn : d.isNullish = true
    · rw [if_pos hnn, if_pos hnn]
      rfl
    · rw [if_neg hnn, if_neg hnn]
      rw [stage1_rel g1 g2 ρ hρ d]
      cases hs1 : stage1 g1 d with
      | error e => rfl
      | ok s1 =>
        simp only [Except.map, mapStage1Ids]
        by_cases hcnd : (!s1.tagged.isEmpty && (jget d "tickets").truthy
            && !((jget d "tickets").isArr)) = true
        · rw [if_pos hcnd, if_pos hcnd]
        · rw [if_neg hcnd, if_neg hcnd]
          have hpt := processTickets_rel g1 g2 ρ hρ hc now s1.boards s1.boardMap
            s1.sprintMap (workingList d s1.tagged) s1.ctr []
          rw [show mapVals ρ ([] : List (JsVal × String)) = [] from rfl] at hpt
          rw [hpt]
          cases hrun : processTickets g1 now cb s1.boards s1.boardMap s1.sprintMap
              (workingList d s1.tagged) s1.ctr [] with
          | error e => rfl
          | ok out =>
            obtain ⟨c, tm, pts⟩ := out
            simp only [Except.map, mapParsedIds, List.map_map, List.length_map]
            congr 1
            have hmap : List.map (linkParent (mapVals ρ tm) ∘ mapTicketPass1 ρ) pts
                = List.map (mapTicketIds ρ ∘ linkParent tm) pts :=
              List.map_congr_left (fun p _ => linkParent_rel ρ tm p)
            rw [hmap]

theorem processSprintList_ids {g : Nat → String} {bid : String} :
    ∀ {l : List JsVal} {ctr : Nat} {sm : List (JsVal × String)}
      {c : Nat} {m : List (JsVal × String)} {sps : List Sprint},
    processSprintList g bid l ctr sm = .ok (c, m, sps) →
    c = ctr + l.length ∧ sps.map Sprint.id = (List.range' ctr l.length).map g := by
  intro l
  induction l with
  | nil =>
    intro ctr sm c m sps h
    simp only [processSprintList, Except.ok.injEq, Prod.mk.injEq] at h
    obtain ⟨hc, -, hs⟩ := h
    refine ⟨?_, by rw [← hs]; rfl⟩
    simp only [List.length_nil]
    omega
  | cons s rest ih =>
    intro ctr sm c m sps h
    simp only [processSprintList] at h
    split at h
    · exact absurd h (by simp)
    · split at h
      · exact absurd h (by simp)
      · rename_i hrec
        simp only [Except.ok.injEq, Prod.mk.injEq] at h
        obtain ⟨hc, -, hs⟩ := h
        obtain ⟨ihc, ihids⟩ := ih hrec
        constructor
        · rw [← hc, ihc]
          simp [List.length_cons]
          omega
        · rw [← hs]
          simp only [List.map_cons, List.length_cons]
          rw [List.range'_succ]
          simp only [List.map_cons]
          rw [ihids]

theorem processTickets_ids {g : Nat → String} {now : String} {cb : Option String}
    {bs : List Board} {bm sm : List (JsVal × String)} :
    ∀ {l : List (JsVal × Option JsVal)} {ctr : Nat} {tm : List (JsVal × String)}
      {c : Nat} {m : List (JsVal × String)} {ps : List Ticket},
    processTickets g now cb bs bm sm l ctr tm = .ok (c, m, ps) →
    ps.map Ticket.id = (List.range' ctr l.length).map g := by
  intro l
  induction l with
  | nil =>
    intro ctr tm c m ps h
    simp only [processTickets, Except.ok.injEq, Prod.mk.injEq] at h
    obtain ⟨-, -, hs⟩ := h
    rw [← hs]
    rfl
  | cons e rest ih =>
    intro ctr tm c m ps h
    simp only [processTickets] at h
    split at h
    · exact absurd h (by simp)
    · split at h
      · exact absurd h (by simp)
      · rename_i hrec
        simp only [Except.ok.injEq, Prod.mk.injEq] at h
        obtain ⟨-, -, hs⟩ := h
        rw [← hs]
        simp only [List.map_cons, List.length_cons]
        rw [List.range'_succ]
        simp only [List.map_cons]
        rw [ih hrec, materializeTicket_id]

theorem processBoards_ids {g : Nat → String} :
    ∀ {l : List JsVal} {ctr : Nat} {bm sm : List (JsVal × String)} {s1 : Stage1Out},
    processBoards g l ctr bm sm = .ok s1 →
    ctr ≤ s1.ctr ∧
    ∃ kb ksp : List Nat,
      s1.boards.map Board.id = kb.map g ∧
      s1.sprints.map Sprint.id = ksp.map g ∧
      (kb ++ ksp).Nodup ∧
      (∀ k ∈ kb ++ ksp, ctr ≤ k ∧ k < s1.ctr) := by
  intro l
  induction l with
  | nil =>
    intro ctr bm sm s1 h
    simp only [processBoards, Except.ok.injEq] at h
    subst h
    exact ⟨le_refl _, [], [], rfl, rfl, by simp, by simp⟩
  | cons b rest ih =>
    intro ctr bm sm s1 h
    simp only [processBoards] at h
    split at h
    · exact absurd h (by simp)
    · cases hspr : (if (jget b "sprints").isArr = true
          then processSprintList g (g ctr) (jget b "sprints").elems (ctr + 1) sm
          else Except.ok (ctr + 1, sm, [])) with
      | error e => rw [hspr] at h; exact absurd h (by simp)
      | ok tri =>
        obtain ⟨c2, sm2, sps⟩ := tri
        rw [hspr] at h
        simp only [] at h
        cases htag : (if (jget b "tickets").isArr = true
            then tagTickets (jget b "id") (jget b "tickets").elems
            else Except.ok []) with
        | error e => rw [htag] at h; exact absurd h (by simp)
        | ok tg =>
          rw [htag] at h
          simp only [] at h
          cases hrec : processBoards g rest c2
              (if (jget b "id").truthy = true then (jget b "id", g ctr) :: bm else bm)
              sm2 with
          | error e => rw [hrec] at h; exact absurd h (by simp)
          | ok out =>
            rw [hrec] at h
            simp only [Except.ok.injEq] at h
            subst h
            obtain ⟨hsl, hc2, hspids⟩ : ∃ sl, c2 = ctr + 1 + sl ∧
                sps.map Sprint.id = (List.range' (ctr + 1) sl).map g := by
              by_cases harr : (jget b "sprints").isArr = true
              · rw [if_pos harr] at hspr
                obtain ⟨hc, hids⟩ := processSprintList_ids hspr
                exact ⟨(jget b "sprints").elems.length, by omega, hids⟩
              · rw [if_neg harr] at hspr
                simp only [Except.ok.injEq, Prod.mk.injEq] at hspr
                obtain ⟨hc, -, hs⟩ := hspr
                exact ⟨0, by omega, by rw [← hs]; rfl⟩
            obtain ⟨hle, kb2, ksp2, hkb2, hksp2, hnd2, hbd2⟩ := ih hrec
            have hnd2a := (List.nodup_append.mp hnd2).1
            have hnd2b := (List.nodup_append.mp hnd2).2.1
            have hnd2c := (List.nodup_append.mp hnd2).2.2
            refine ⟨?_, ctr :: kb2, List.range' (ctr + 1) hsl ++ ksp2, ?_, ?_, ?_, ?_⟩
            · show ctr ≤ out.ctr
              omega
            · simp only [List.map_cons]
              rw [hkb2]
            · simp only [List.map_append]
              rw [hspids, hksp2]
            · refine List.nodup_append.mpr ⟨?_, ?_, ?_⟩
              · refine List.nodup_cons.mpr ⟨?_, hnd2a⟩
                intro hmem
                have := (hbd2 ctr (List.mem_append_left _ hmem)).1
                omega
              · refine List.nodup_append.mpr ⟨List.nodup_range' _ _, hnd2b, ?_⟩
                intro a ha hamem
                have h1 := (List.mem_range'_1.mp ha).2
                have h2 := (hbd2 a (List.mem_append_right _ hamem)).1
                omega
              · intro a ha hmem
                rcases List.mem_cons.mp ha with ha0 | ha1
                · subst ha0
                  rcases List.mem_append.mp hmem with hm0 | hm1
                  · have := (List.mem_range'_1.mp hm0).1
                    omega
                  · have := (hbd2 _ (List.mem_append_right _ hm1)).1
                    omega
                · rcases List.mem_append.mp hmem with hm0 | hm1
                  · have h1 := (List.mem_range'_1.mp hm0).2
                    have h2 := (hbd2 _ (List.mem_append_left _ ha1)).1
                    omega
                  · exact hnd2c ha1 hm1
            · intro k hk
              rcases List.mem_append.mp hk with hA | hB
              · rcases List.mem_cons.mp hA with h0 | h1
                · refine ⟨by omega, ?_⟩
                  show k < out.ctr
                  omega
                · have hb2 := hbd2 k (List.mem_append_left _ h1)
                  refine ⟨by omega, ?_⟩
                  show k < out.ctr
                  omega
              · rcases List.mem_append.mp hB with h0 | h1
                · have hr := List.mem_range'_1.mp h0
                  refine ⟨by omega, ?_⟩
                  show k < out.ctr
                  omega
                · have hb2 := hbd2 k (List.mem_append_right _ h1)
                  refine ⟨by omega, ?_⟩
                  show k < out.ctr
                  omega

theorem stage1_ids {g : Nat → String} {d : JsVal} {s1 : Stage1Out}
    (h : stage1 g d = .ok s1) :
    ∃ kb ksp : List Nat,
      s1.boards.map Board.id = kb.map g ∧
      s1.sprints.map Sprint.id = ksp.map g ∧
      (kb ++ ksp).Nodup ∧
      (∀ k ∈ kb ++ ksp, k < s1.ctr) := by
  unfold stage1 at h
  split at h
  · obtain ⟨-, kb, ksp, h1, h2, h3, h4⟩ := processBoards_ids h
    exact ⟨kb, ksp, h1, h2, h3, fun k hk => (h4 k hk).2⟩
  · simp only [Except.ok.injEq] at h
    subst h
    exact ⟨[], [], rfl, rfl, by simp, by simp⟩

theorem batchIds_ids {g : Nat → String} {now : String} {d : JsVal}
    {cb : Option String} {r : ParsedResult}
    (h : parseJsonImport g now (some d) cb = .ok r) :
    ∃ ks : List Nat, batchIds r = ks.map g ∧ ks.Nodup := by
  obtain ⟨s1, c, tm, pts, hnn, hs1, hpc, hpt, hr⟩ := parseJsonImport_ok h
  obtain ⟨kb, ksp, h1, h2, h3, h4⟩ := stage1_ids hs1
  have htids : pts.map Ticket.id
      = (List.range' s1.ctr (workingList d s1.tagged).length).map g :=
    processTickets_ids hpt
  subst hr
  have hkb4 : ∀ k ∈ kb, k < s1.ctr := fun k hk => h4 k (List.mem_append_left _ hk)
  have hksp4 : ∀ k ∈ ksp, k < s1.ctr := fun k hk => h4 k (List.mem_append_right _ hk)
  have h3a := (List.nodup_append.mp h3).1
  have h3b := (List.nodup_append.mp h3).2.1
  have h3c := (List.nodup_append.mp h3).2.2
  refine ⟨kb ++ (ksp ++ List.range' s1.ctr (workingList d s1.tagged).length), ?_, ?_⟩
  · have hlt : (pts.map (linkParent tm)).map Ticket.id = pts.map Ticket.id := by
      rw [List.map_map]
      exact List.map_congr_left (fun p _ => linkParent_id tm p)
    show s1.boards.map Board.id ++ s1.sprints.map Sprint.id
        ++ (pts.map (linkParent tm)).map Ticket.id = _
    rw [h1, h2, hlt, htids, List.map_append, List.map_append, List.append_assoc]
  · refine List.nodup_append.mpr ⟨h3a, ?_, ?_⟩
    · refine List.nodup_append.mpr ⟨h3b, List.nodup_range' _ _, ?_⟩
      intro a ha hamem
      have hr1 := (List.mem_range'_1.mp hamem).1
      have := hksp4 a ha
      omega
    · intro a ha hmem
      rcases List.mem_append.mp hmem with hm0 | hm1
      · exact h3c ha hm0
      · have hr1 := (List.mem_range'_1.mp hm1).1
        have := hkb4 a ha
        omega

/-- C6: running reconcile twice on the same deserialized document with
fresh generator draws yields structurally equivalent batches up to the
renaming ρ of generated ids (carrying the first run's k-th draw to the
second run's k-th draw and fixing the fallbackBoardId); when the two
generators' ranges are disjoint the two batches share no id; and under an
injective generator every emitted id within one batch is pairwise
distinct. -/
theorem claim_c6_double_import (g1 g2 : Nat → String) (ρ : String → String)
    (now : String) (parsed : Option JsVal) (cb : Option String)
    (hρ : ∀ k, ρ (g1 k) = g2 k)
    (hc : ∀ v, cb = some v → ρ v = v)
    (hdisj : ∀ m n, g1 m ≠ g2 n)
    (hinj : Function.Injective g1) :
    parseJsonImport g2 now parsed cb
      = (parseJsonImport g1 now parsed cb).map (mapParsedIds ρ) ∧
    (∀ r1 r2, parseJsonImport g1 now parsed cb = .ok r1 →
        parseJsonImport g2 now parsed cb = .ok r2 →
        ∀ s ∈ batchIds r1, s ∉ batchIds r2) ∧
    (∀ r1, parseJsonImport g1 now parsed cb = .ok r1 → (batchIds r1).Nodup) := by
  refine ⟨parseJsonImport_rel g1 g2 ρ hρ now parsed hc, ?_, ?_⟩
  · intro r1 r2 h1 h2 s hs1 hs2
    cases parsed with
    | none => exact absurd h1 (by simp [parseJsonImport])
    | some d =>
      obtain ⟨ks1, hk1, -⟩ := batchIds_ids h1
      obtain ⟨ks2, hk2, -⟩ := batchIds_ids h2
      rw [hk1] at hs1
      rw [hk2] at hs2
      obtain ⟨m, -, hm⟩ := List.mem_map.mp hs1
      obtain ⟨n, -, hn⟩ := List.mem_map.mp hs2
      exact hdisj m n (hm.trans hn.symm)
  · intro r1 h1
    cases parsed with
    | none => exact absurd h1 (by simp [parseJsonImport])
    | some d =>
      obtain ⟨ks1, hk1, hnd⟩ := batchIds_ids h1
      rw [hk1]
      exact hnd.map hinj

theorem c6g1_injective : Function.Injective c6g1 := by
  intro a b hab
  have hd := congrArg String.data hab
  have : List.replicate a 'a' = List.replicate b 'a' := hd
  have hlen := congrArg List.length this
  simpa using hlen

theorem c6_ranges_disjoint : ∀ m n, c6g1 m ≠ c6g2 n := by
  intro m n h
  have hd := congrArg String.data h
  have hd2 : List.replicate m 'a' = 'b' :: List.replicate n 'a' := by
    have : (c6g2 n).data = ("b" : String).data ++ (c6g1 n).data :=
      String.data_append _ _
    rw [this] at hd
    exact hd
  cases m with
  | zero => simp [List.replicate] at hd2
  | succ k =>
    rw [List.replicate_succ] at hd2
    have := List.head_eq_of_cons_eq hd2
    exact absurd this (by decide)

/-- Witness for C6: two concrete disjoint generators over a concrete
document. -/
theorem claim_c6_witness :
    parseJsonImport c6g2 "T" (some wdoc) none
      = (parseJsonImport c6g1 "T" (some wdoc) none).map (mapParsedIds c6rho) :=
  (claim_c6_double_import c6g1 c6g2 c6rho "T" (some wdoc) none
    (fun _ => rfl) (fun _ h => nomatch h) c6_ranges_disjoint c6g1_injective).1
